import Mathlib

/-!
Verification of the TrendRadar classification / scoping / weighting engine
(`src/trendradar/core/analyzer.py` and `src/trendradar/core/constants.py`)
against its natural-language specification.

The embedding below follows the Python source.  Python dicts are modelled as
association lists in insertion order (assignment to an existing key replaces
the value in place; assignment to a fresh key appends at the end).  Python
floats are modelled as rationals (`ℚ`): the claims under study concern the
exact arithmetic structure of the weight formula, not IEEE rounding.  The
word matcher `_word_matches` and the acceptance test `matches_word_groups`
live in `trendradar/core/frequency.py`, which is not among the provided
sources; the engine is therefore parameterised by an abstract matcher
`wm : String → String → Bool` (word, lower-cased title), and
`matchesWordGroups` is modelled from the spec (see its doc comment).
-/

namespace TrendRadar

/-! ### Constants (`trendradar/core/constants.py`, `WeightConstants` / `RankingConstants`) -/

def MAX_RANK_SCORE : Nat := 10

def BASE_RANK_SCORE : Nat := 11

def FREQUENCY_MULTIPLIER : Nat := 10

def HOTNESS_MULTIPLIER : Nat := 100

def DEFAULT_RANK_WEIGHT : ℚ := mkRat 2 5

def DEFAULT_FREQUENCY_WEIGHT : ℚ := mkRat 3 10

def DEFAULT_HOTNESS_WEIGHT : ℚ := mkRat 3 10

def DEFAULT_RANK : Nat := 99

def DEFAULT_RANK_THRESHOLD : Nat := 3

/-! ### Exact rational arithmetic in kernel-reducible form

The library's `Rat.add`/`Rat.mul`/`Rat.div` are marked irreducible, so concrete
runs of the engine could not be evaluated inside proofs through them.  The
operations below compute the same rational values through `Rat.divInt` (which
reduces); the bridging theorems `qAdd_eq` … `qDiv_eq` prove they are exactly
`+`, `-`, `*`, `/` on `ℚ`. -/

/-- Rational addition via `Rat.divInt` (see `qAdd_eq`). -/
def qAdd (a b : ℚ) : ℚ :=
  Rat.divInt (a.num * b.den + b.num * a.den) ((a.den : ℤ) * (b.den : ℤ))

/-- Rational subtraction via `Rat.divInt` (see `qSub_eq`). -/
def qSub (a b : ℚ) : ℚ :=
  Rat.divInt (a.num * b.den - b.num * a.den) ((a.den : ℤ) * (b.den : ℤ))

/-- Rational multiplication via `Rat.divInt` (see `qMul_eq`). -/
def qMul (a b : ℚ) : ℚ :=
  Rat.divInt (a.num * b.num) ((a.den : ℤ) * (b.den : ℤ))

/-- Rational division via `Rat.divInt` (see `qDiv_eq`). -/
def qDiv (a b : ℚ) : ℚ :=
  Rat.divInt (a.num * b.den) ((a.den : ℤ) * b.num)

/-- Sum of a list of rationals via `qAdd` (see `qSum_eq`). -/
def qSum (l : List ℚ) : ℚ :=
  l.foldr qAdd 0

/-- Boolean strict comparison by cross-multiplication (see `qLtB_iff`). -/
def qLtB (a b : ℚ) : Bool :=
  decide (a.num * (b.den : ℤ) < b.num * (a.den : ℤ))

/-- Weight configuration dict `{RANK_WEIGHT, FREQUENCY_WEIGHT, HOTNESS_WEIGHT}`;
absent keys fall back to the defaults via `dict.get`, which the field defaults model. -/
structure WeightConfig where
  RANK_WEIGHT : ℚ := DEFAULT_RANK_WEIGHT
  FREQUENCY_WEIGHT : ℚ := DEFAULT_FREQUENCY_WEIGHT
  HOTNESS_WEIGHT : ℚ := DEFAULT_HOTNESS_WEIGHT
deriving DecidableEq

/-! ### WeightCalculator (`analyzer.py`, lines 56-119) -/

/-- `_calculate_rank_weight`: mean of `BASE_RANK_SCORE - min(rank, MAX_RANK_SCORE)`. -/
def calculate_rank_weight (ranks : List Nat) : ℚ :=
  if ranks.length = 0 then 0
  else qDiv
    (qSum (ranks.map (fun r => qSub (BASE_RANK_SCORE : ℚ) ((min r MAX_RANK_SCORE : Nat) : ℚ))))
    (ranks.length : ℚ)

/-- `_calculate_frequency_weight`: `min(count, MAX_RANK_SCORE) * FREQUENCY_MULTIPLIER`. -/
def calculate_frequency_weight (count : Nat) : ℚ :=
  qMul ((min count MAX_RANK_SCORE : Nat) : ℚ) (FREQUENCY_MULTIPLIER : ℚ)

/-- `_calculate_hotness_weight`: fraction of ranks `≤ rank_threshold`, times
`HOTNESS_MULTIPLIER`. -/
def calculate_hotness_weight (ranks : List Nat) (rank_threshold : Nat) : ℚ :=
  if ranks.length = 0 then 0
  else qMul
    (qDiv ((ranks.filter (fun r => r ≤ rank_threshold)).length : ℚ) (ranks.length : ℚ))
    (HOTNESS_MULTIPLIER : ℚ)

/-- `calculate_news_weight(title_data, rank_threshold, weight_config)`.
The relevant keys of `title_data` are `ranks` (default `[]`) and `count`
(default `len(ranks)` when the key is absent, hence the `Option`). -/
def calculate_news_weight (ranks : List Nat) (count? : Option Nat)
    (rank_threshold : Nat) (w : WeightConfig) : ℚ :=
  if ranks.length = 0 then 0
  else
    let count := count?.getD ranks.length
    qAdd
      (qAdd (qMul (calculate_rank_weight ranks) w.RANK_WEIGHT)
        (qMul (calculate_frequency_weight count) w.FREQUENCY_WEIGHT))
      (qMul (calculate_hotness_weight ranks rank_threshold) w.HOTNESS_WEIGHT)

/-- Minimum of a list of ranks, with a fallback for the empty list
(`min(x["ranks"]) if x["ranks"] else 999` in the sort keys). -/
def listMin (l : List Nat) (dft : Nat) : Nat :=
  match l with
  | [] => dft
  | x :: xs => xs.foldl Nat.min x

/-! ### Python dict model: association lists in insertion order -/

/-- `d.get(k)` / `d[k]`: first (and in Python unique) binding of `k`. -/
def alGet {V : Type} (k : String) : List (String × V) → Option V
  | [] => none
  | (k', v) :: rest => if k' = k then some v else alGet k rest

/-- `d[k] = v`: replace in place when the key exists, append otherwise. -/
def alInsert {V : Type} (k : String) (v : V) : List (String × V) → List (String × V)
  | [] => [(k, v)]
  | (k', v') :: rest => if k' = k then (k, v) :: rest else (k', v') :: alInsert k v rest

/-- In-place update of the value at `k`; no-op when the key is absent. -/
def alModify {V : Type} (k : String) (f : V → V) : List (String × V) → List (String × V)
  | [] => []
  | (k', v) :: rest => if k' = k then (k', f v) :: rest else (k', v) :: alModify k f rest

/-- `k in d`. -/
def alMem {V : Type} (k : String) (l : List (String × V)) : Bool :=
  (alGet k l).isSome

/-- All `(outer key, inner key, value)` triples of a dict of dicts, in iteration order. -/
def alPairs {V : Type} (l : List (String × List (String × V))) :
    List (String × String × V) :=
  l.flatMap (fun s => s.2.map (fun p => (s.1, p.1, p.2)))

/-! ### Rules and matching -/

/-- A word group from the compiled rule set: `{"required": [...], "normal": [...],
"group_key": ..., "display_name": ..., "max_count": ...}`; `display_name` and
`max_count` are read with `.get` defaults. -/
structure WordGroup where
  required : List String
  normal : List String
  group_key : String
  display_name : Option String := none
  max_count : Nat := 0
deriving DecidableEq

/-- Python `str.lower()`: character-wise lower-casing (structural counterpart of
`String.toLower`, which maps `Char.toLower` over the characters). -/
def pyLower (s : String) : String :=
  ⟨s.data.map Char.toLower⟩

/-- Prefix test on character lists. -/
def isPrefB : List Char → List Char → Bool
  | [], _ => true
  | _ :: _, [] => false
  | a :: as, b :: bs => a = b && isPrefB as bs

/-- Contiguous-substring test on character lists. -/
def isSubB (w : List Char) : List Char → Bool
  | [] => w.isEmpty
  | t@(_ :: rest) => isPrefB w t || isSubB w rest

/-- Modelled from the spec: `_word_matches` lives in `trendradar/core/frequency.py`,
which is not among the provided sources.  Per the spec a literal word spec matches
as a case-insensitive substring of the title; this is the literal instance of the
abstract matcher parameter `wm` (regex word specs are not modelled).  The second
argument is the already lower-cased title, as in the source call sites. -/
def wmLit (w t : String) : Bool :=
  isSubB (pyLower w).data t.data

/-- The synthetic match-everything rule set: a single group with empty `required`
and empty `normal` (the degenerate case the spec prescribes for an empty rule
configuration). -/
def isSyntheticCatchall (wgs : List WordGroup) : Bool :=
  match wgs with
  | [g] => g.required.isEmpty && g.normal.isEmpty
  | _ => false

/-- The catch-all test of the aggregation loop in `count_word_frequency`
(analyzer.py line 471): `len(word_groups) == 1 and word_groups[0]["group_key"] == "全部新闻"`. -/
def isCatchallNews (wgs : List WordGroup) : Bool :=
  match wgs with
  | [g] => g.group_key = "全部新闻"
  | _ => false

/-- Modelled from the spec: the per-group condition of `matches_word_groups`
(`trendradar/core/frequency.py`, not among the provided sources).  If `required`
is non-empty, every required entry must match and a non-empty `normal` list must
still have at least one match (an empty `normal` is always true when `required`
is present); if `required` is empty and `normal` non-empty, at least one normal
entry must match; a group with both lists empty never matches. -/
def groupSpecMatch (wm : String → String → Bool) (g : WordGroup) (t : String) : Bool :=
  if !g.required.isEmpty then
    g.required.all (fun w => wm w t) && (g.normal.isEmpty || g.normal.any (fun w => wm w t))
  else if !g.normal.isEmpty then
    g.normal.any (fun w => wm w t)
  else
    false

/-- Modelled from the spec: `matches_word_groups(title, word_groups, filter_words,
global_filters)` from `trendradar/core/frequency.py` (not among the provided
sources).  A title matching any filter word or global filter is rejected; the
synthetic catch-all rule set accepts everything else; otherwise the title is
accepted iff some group satisfies its condition.  Matching is against the
lower-cased title. -/
def matchesWordGroups (wm : String → String → Bool) (wgs : List WordGroup)
    (filter_words global_filters : List String) (title : String) : Bool :=
  let t := pyLower title
  if (filter_words ++ global_filters).any (fun w => wm w t) then false
  else if isSyntheticCatchall wgs then true
  else wgs.any (fun g => groupSpecMatch wm g t)

/-- The inline per-group re-check of the aggregation loop (analyzer.py lines
469-483), transcribed clause for clause: `req_match`/`norm_match` booleans, the
two `continue` guards, then `is_match = True`. -/
def groupInlineMatch (wm : String → String → Bool) (g : WordGroup) (t : String) : Bool :=
  let req_match := g.required.isEmpty || g.required.all (fun w => wm w t)
  let norm_match := g.normal.isEmpty || g.normal.any (fun w => wm w t)
  if !g.required.isEmpty && !req_match then false
  else if !g.normal.isEmpty && !norm_match && !(g.required.isEmpty && g.normal.isEmpty) then
    false
  else true

/-- The group the aggregation loop assigns an accepted title to: the first group in
declaration order whose inline condition holds, the catch-all special case
(analyzer.py line 471) making every group match unconditionally. -/
def findAssignedGroup (wm : String → String → Bool) (wgs : List WordGroup)
    (t : String) : Option WordGroup :=
  wgs.find? (fun g => if isCatchallNews wgs then true else groupInlineMatch wm g t)

/-! ### Snapshot / history / output records -/

/-- One snapshot entry `{ranks, url, mobileUrl, image_url}` (keys read with `.get`
string/list defaults). -/
structure TitleData where
  ranks : List Nat := []
  url : String := ""
  mobileUrl : String := ""
  image_url : String := ""
deriving DecidableEq

/-- One history record `{first_time, last_time, count, ranks, url, mobileUrl,
image_url}`; the three url keys are read with the snapshot value as `.get`
default, hence the `Option`s. -/
structure HistInfo where
  first_time : String := ""
  last_time : String := ""
  count : Nat := 1
  ranks : List Nat := []
  url? : Option String := none
  mobileUrl? : Option String := none
  image_url? : Option String := none
deriving DecidableEq

/-- The per-title output record built by `_process_title_data`. -/
structure Summary where
  title : String
  source_name : String
  first_time : String
  last_time : String
  time_display : String
  count : Nat
  ranks : List Nat
  rank_threshold : Nat
  url : String
  mobileUrl : String
  image_url : String
  is_new : Bool
deriving DecidableEq

/-- One `word_stats` bucket: `{"count": .., "titles": {source_id: [..]}}`. -/
structure Bucket where
  count : Nat
  titles : List (String × List Summary)
deriving DecidableEq

/-- One element of the returned `stats` list. -/
structure Stat where
  word : String
  count : Nat
  position : Nat
  titles : List Summary
  percentage : ℚ
deriving DecidableEq

/-- Crawl results / new-title index: `{source_id: {title: title_data}}`. -/
abbrev Results := List (String × List (String × TitleData))

/-- History: `{source_id: {title: info}}`. -/
abbrev TitleInfo := List (String × List (String × HistInfo))

/-- `WordFrequencyConfig` after `__post_init__` (defaults resolved,
`is_first_today` computed from `is_first_crawl_func`, which defaults to
`lambda: True`). -/
structure WFConfig where
  wm : String → String → Bool
  word_groups : List WordGroup
  filter_words : List String
  id_to_name : List (String × String)
  title_info : TitleInfo := []
  rank_threshold : Nat := DEFAULT_RANK_THRESHOLD
  new_titles : Results := []
  mode : String := "daily"
  global_filters : List String := []
  weight_config : WeightConfig := {}
  max_news_per_keyword : Nat := 0
  sort_by_position_first : Bool := false
  is_first_today : Bool := true
  convert_time : String → String := id

/-! ### ScopeSelector (`analyzer.py`, lines 122-171) -/

/-- Python string `<`: lexicographic comparison of the character sequences by
code point (structurally decidable, unlike the iterator-based library
instance; see `strLtB_iff`). -/
def strLtB (a b : String) : Bool :=
  decide (a.data < b.data)

/-- Python string `<=` (see `strLeB_iff`). -/
def strLeB (a b : String) : Bool :=
  !(decide (b.data < a.data))

/-- One step of the `latest_time` scan of `_filter_current_batch`: adopt a
non-empty `last_time` that is strictly greater (string order) than the current
candidate. -/
def lastTimeStep (acc : Option String) (lt : String) : Option String :=
  match acc with
  | none => if lt ≠ "" then some lt else acc
  | some m => if lt ≠ "" ∧ strLtB m lt then some lt else acc

/-- The `latest_time` computed by `_filter_current_batch` over all history
entries (`None` when no entry has a non-empty `last_time`). -/
def maxLastTime? (ti : TitleInfo) : Option String :=
  ti.foldl (fun acc s => s.2.foldl (fun a p => lastTimeStep a p.2.last_time) acc) none

/-- The per-title keep test of `_filter_current_batch`: the title has a history
record in its source and that record's `last_time` equals the latest time. -/
def filterKeep (src_info : List (String × HistInfo)) (latest : String)
    (p : String × TitleData) : Bool :=
  match alGet p.1 src_info with
  | some info => decide (info.last_time = latest)
  | none => false

/-- The per-source step of `_filter_current_batch`: sources not in the history,
and sources left with no kept titles, are dropped. -/
def filterStep (cfg : WFConfig) (latest : String) (acc : Results)
    (s : String × List (String × TitleData)) : Results :=
  match alGet s.1 cfg.title_info with
  | none => acc
  | some src_info =>
    let filtered := s.2.filter (filterKeep src_info latest)
    if filtered.isEmpty then acc else acc ++ [(s.1, filtered)]

/-- `_filter_current_batch`: keep only titles whose history record's `last_time`
equals the latest time. -/
def filter_current_batch (cfg : WFConfig) (results : Results) : Results :=
  if cfg.title_info.isEmpty then results
  else
    match maxLastTime? cfg.title_info with
    | none => results
    | some latest => results.foldl (filterStep cfg latest) []

/-- `_determine_processing_scope`: pick the working items and the
all-news-are-new flag per mode. -/
def determine_processing_scope (cfg : WFConfig) (results : Results) : Results × Bool :=
  if cfg.mode = "incremental" then
    if cfg.is_first_today then (results, true)
    else ((if cfg.new_titles.isEmpty then [] else cfg.new_titles), true)
  else if cfg.mode = "current" then
    (filter_current_batch cfg results, false)
  else
    (results, false)

/-! ### Per-title record construction (`analyzer.py`, lines 188-242, 338-362) -/

/-- `format_time_display`. -/
def format_time_display (first_time last_time : String)
    (conv : String → String) : String :=
  if first_time = "" then ""
  else
    let fd := conv first_time
    let ld := conv last_time
    if fd = ld ∨ ld = "" then fd
    else "[" ++ fd ++ " ~ " ++ ld ++ "]"

/-- `_process_title_data`: merge snapshot data with the history record when one
exists (history wins; url keys fall back to the snapshot values), default the
rank list to `[DEFAULT_RANK]`, and resolve `is_new` as
`all_news_are_new or title in new_titles[source_id]`. -/
def process_title_data (cfg : WFConfig) (title : String) (td : TitleData)
    (source_id : String) (all_news_are_new : Bool) : Summary :=
  let info? : Option HistInfo :=
    match alGet source_id cfg.title_info with
    | some src => alGet title src
    | none => none
  let first_time := match info? with | some i => i.first_time | none => ""
  let last_time := match info? with | some i => i.last_time | none => ""
  let count_info := match info? with | some i => i.count | none => 1
  let ranks0 := match info? with
    | some i => if !i.ranks.isEmpty then i.ranks else td.ranks
    | none => td.ranks
  let url := match info? with | some i => i.url?.getD td.url | none => td.url
  let mobile_url := match info? with
    | some i => i.mobileUrl?.getD td.mobileUrl
    | none => td.mobileUrl
  let image_url := match info? with
    | some i => i.image_url?.getD td.image_url
    | none => td.image_url
  let ranks := if ranks0.isEmpty then [DEFAULT_RANK] else ranks0
  let is_new := all_news_are_new ||
    (match alGet source_id cfg.new_titles with
     | some ts => alMem title ts
     | none => false)
  { title := title
    source_name := (alGet source_id cfg.id_to_name).getD source_id
    first_time := first_time
    last_time := last_time
    time_display := format_time_display first_time last_time cfg.convert_time
    count := count_info
    ranks := ranks
    rank_threshold := cfg.rank_threshold
    url := url
    mobileUrl := mobile_url
    image_url := image_url
    is_new := is_new }

/-! ### AggregationEngine main loop (`analyzer.py`, lines 437-497) -/

/-- `_initialize_word_stats`: one empty bucket per group, in declaration order. -/
def initialize_word_stats (wgs : List WordGroup) : List (String × Bucket) :=
  wgs.foldl (fun ws g => alInsert g.group_key ⟨0, []⟩ ws) []

/-- `source_id in processed_titles and title in processed_titles[source_id]`. -/
def procMem (processed : List (String × List String)) (src title : String) : Bool :=
  match alGet src processed with
  | some ts => ts.contains title
  | none => false

/-- `processed_titles[source_id][title] = True` (creating the inner dict). -/
def markProcessed (processed : List (String × List String)) (src title : String) :
    List (String × List String) :=
  match alGet src processed with
  | some _ => alModify src (fun l => l ++ [title]) processed
  | none => processed ++ [(src, [title])]

/-- Append a processed record to a group's bucket and bump its count. -/
def bumpBucket (src : String) (pd : Summary) (b : Bucket) : Bucket :=
  { count := b.count + 1
    titles := match alGet src b.titles with
      | some _ => alModify src (fun l => l ++ [pd]) b.titles
      | none => b.titles ++ [(src, [pd])] }

/-- Loop state of `count_word_frequency`: the bucket dict, the per-run dedup
dict, and the running `total_titles`. -/
structure LoopState where
  word_stats : List (String × Bucket)
  processed : List (String × List String)
  total : Nat

/-- Body of the inner loop of `count_word_frequency` for one `(title,
title_data)` pair: dedup check, acceptance check, record construction, then
assignment to the first inline-matching group. -/
def stepTitle (cfg : WFConfig) (all_new : Bool) (src : String)
    (st : LoopState) (p : String × TitleData) : LoopState :=
  if procMem st.processed src p.1 then st
  else if !matchesWordGroups cfg.wm cfg.word_groups cfg.filter_words
      cfg.global_filters p.1 then st
  else
    let pd := process_title_data cfg p.1 p.2 src all_new
    match findAssignedGroup cfg.wm cfg.word_groups (pyLower p.1) with
    | some g =>
      { word_stats := alModify g.group_key (bumpBucket src pd) st.word_stats
        processed := markProcessed st.processed src p.1
        total := st.total }
    | none => st

/-- Body of the outer loop for one source: bump `total_titles` by the source's
title count, then fold the inner loop. -/
def stepSource (cfg : WFConfig) (all_new : Bool) (st : LoopState)
    (s : String × List (String × TitleData)) : LoopState :=
  s.2.foldl (stepTitle cfg all_new s.1) { st with total := st.total + s.2.length }

/-- The whole aggregation loop over the working items. -/
def runLoop (cfg : WFConfig) (all_new : Bool) (toProcess : Results) : LoopState :=
  toProcess.foldl (stepSource cfg all_new) ⟨initialize_word_stats cfg.word_groups, [], 0⟩

/-! ### Output formatting (`analyzer.py`, lines 245-304) -/

/-- Mathematical floor of a rational (`num.fdiv den`). -/
def ratFloor (q : ℚ) : ℤ :=
  q.num.fdiv q.den

/-- Python `round(q, 2)` (modelled as round-half-up on exact rationals; the
claims under study do not depend on tie behaviour). -/
def pyRound2 (q : ℚ) : ℚ :=
  qDiv ((ratFloor (qAdd (qMul q 100) (mkRat 1 2))) : ℚ) 100

/-- Stable insertion of `x` in front of the first element `b` with `le x b`. -/
def insOrd {α : Type} (le : α → α → Bool) (x : α) : List α → List α
  | [] => [x]
  | b :: bs => if le x b then x :: b :: bs else b :: insOrd le x bs

/-- Stable sort by a total boolean preorder.  A stable sort is uniquely
determined by a total preorder, so this models Python's stable `sorted`. -/
def pySorted {α : Type} (le : α → α → Bool) : List α → List α
  | [] => []
  | x :: xs => insOrd le x (pySorted le xs)

/-- Sort order of titles within a group: ascending in the key
`(-weight, min(ranks) or 999, -count)`. -/
def titleLe (thr : Nat) (w : WeightConfig) (a b : Summary) : Bool :=
  let wa := calculate_news_weight a.ranks (some a.count) thr w
  let wb := calculate_news_weight b.ranks (some b.count) thr w
  if wa ≠ wb then qLtB wb wa
  else
    let ra := listMin a.ranks 999
    let rb := listMin b.ranks 999
    if ra ≠ rb then decide (ra < rb)
    else decide (b.count ≤ a.count)

/-- Final ordering of group statistics: `(position, -count)` when
`sort_by_position_first`, else `(-count, position)`. -/
def sortStatsLe (byPos : Bool) (a b : Stat) : Bool :=
  if byPos then
    if a.position ≠ b.position then decide (a.position < b.position)
    else decide (b.count ≤ a.count)
  else
    if a.count ≠ b.count then decide (b.count < a.count)
    else decide (a.position ≤ b.position)

/-- Build one `stats` entry from a `word_stats` bucket: per-group weight sort,
cap, display name, position, percentage. -/
def mkStat (cfg : WFConfig) (posMap : List (String × Nat))
    (maxCountMap : List (String × Nat)) (displayMap : List (String × Option String))
    (total_titles : Nat) (gb : String × Bucket) : Stat :=
  let all_titles := gb.2.titles.flatMap (fun s => s.2)
  let sorted0 := pySorted (titleLe cfg.rank_threshold cfg.weight_config) all_titles
  let gmax0 := (alGet gb.1 maxCountMap).getD 0
  let gmax := if gmax0 = 0 then cfg.max_news_per_keyword else gmax0
  let sorted_titles := if gmax > 0 then sorted0.take gmax else sorted0
  let display_word :=
    match (alGet gb.1 displayMap).getD none with
    | some s => if s = "" then gb.1 else s
    | none => gb.1
  { word := display_word
    count := gb.2.count
    position := (alGet gb.1 posMap).getD 999
    titles := sorted_titles
    percentage :=
      if total_titles > 0 then pyRound2 (qMul (qDiv (gb.2.count : ℚ) (total_titles : ℚ)) 100)
      else 0 }

/-- `_sort_and_format_stats`: per-group formatting, then the final group
ordering. -/
def sort_and_format_stats (cfg : WFConfig) (word_stats : List (String × Bucket))
    (total_titles : Nat) : List Stat :=
  let posMap := cfg.word_groups.enum.foldl
    (fun m p => alInsert p.2.group_key p.1 m) []
  let maxCountMap := cfg.word_groups.foldl
    (fun m g => alInsert g.group_key g.max_count m) []
  let displayMap := cfg.word_groups.foldl
    (fun m g => alInsert g.group_key g.display_name m) []
  let stats := word_stats.map (mkStat cfg posMap maxCountMap displayMap total_titles)
  pySorted (sortStatsLe cfg.sort_by_position_first) stats

/-- The resolved config built at the top of `count_word_frequency`: empty rules
degenerate to the synthetic catch-all and drop the filter words;
`is_first_crawl_func` defaults to `lambda: True` in `__post_init__`. -/
def cwfConfig (wm : String → String → Bool)
    (word_groups : List WordGroup) (filter_words : List String)
    (id_to_name : List (String × String)) (title_info : TitleInfo)
    (rank_threshold : Nat) (new_titles : Results) (mode : String)
    (global_filters : List String) (weight_config : WeightConfig)
    (max_news_per_keyword : Nat) (sort_by_position_first : Bool)
    (isFirstCrawl? : Option Bool) (convert_time : String → String) : WFConfig :=
  { wm := wm
    word_groups :=
      if word_groups.isEmpty then [WordGroup.mk [] [] "全部新闻" none 0] else word_groups
    filter_words := if word_groups.isEmpty then [] else filter_words
    id_to_name := id_to_name
    title_info := title_info
    rank_threshold := rank_threshold
    new_titles := new_titles
    mode := mode
    global_filters := global_filters
    weight_config := weight_config
    max_news_per_keyword := max_news_per_keyword
    sort_by_position_first := sort_by_position_first
    is_first_today := isFirstCrawl?.getD true
    convert_time := convert_time }

/-- `count_word_frequency`: resolve the config, pick the scope, run the loop,
format; returns `(stats, total_titles)`. -/
def count_word_frequency (wm : String → String → Bool) (results : Results)
    (word_groups : List WordGroup) (filter_words : List String)
    (id_to_name : List (String × String)) (title_info : TitleInfo)
    (rank_threshold : Nat) (new_titles : Results) (mode : String)
    (global_filters : List String) (weight_config : WeightConfig)
    (max_news_per_keyword : Nat) (sort_by_position_first : Bool)
    (isFirstCrawl? : Option Bool) (convert_time : String → String) :
    List Stat × Nat :=
  let cfg := cwfConfig wm word_groups filter_words id_to_name title_info
    rank_threshold new_titles mode global_filters weight_config
    max_news_per_keyword sort_by_position_first isFirstCrawl? convert_time
  let scope := determine_processing_scope cfg results
  let st := runLoop cfg scope.2 scope.1
  (sort_and_format_stats cfg st.word_stats st.total, st.total)

/-! ### RSS variant (`analyzer.py`, lines 514-730) -/

/-- One RSS item; `feed_name`/`feed_id` are read with nested `.get` defaults,
the other keys with `""` defaults. -/
structure RssItem where
  title : String := ""
  feed_id? : Option String := none
  feed_name? : Option String := none
  url : String := ""
  published_at : String := ""
  image_url : String := ""
deriving DecidableEq

/-- The per-item record built by `count_rss_frequency` (`mobile_url` key, no
first/last times). -/
structure RssSummary where
  title : String
  source_name : String
  time_display : String
  count : Nat
  ranks : List Nat
  rank_threshold : Nat
  url : String
  mobile_url : String
  image_url : String
  is_new : Bool
deriving DecidableEq

/-- One element of the RSS `stats` list. -/
structure RssStat where
  word : String
  count : Nat
  position : Nat
  titles : List RssSummary
  percentage : ℚ
deriving DecidableEq

/-- One RSS `word_stats` bucket: `{"count": .., "titles": [..]}` (flat list,
unlike the ranked variant's per-source dict). -/
structure RssBucket where
  count : Nat
  titles : List RssSummary
deriving DecidableEq

/-- The inline per-group check of the RSS loop (analyzer.py lines 631-650):
required words must all match, then normal words must have a match. -/
def rssGroupMatch (wm : String → String → Bool) (g : WordGroup) (t : String) : Bool :=
  if !g.required.isEmpty && !(g.required.all (fun w => wm w t)) then false
  else if !g.normal.isEmpty && !(g.normal.any (fun w => wm w t)) then false
  else true

/-- The catch-all test of the RSS loop (analyzer.py line 629):
`len(word_groups) == 1 and word_groups[0]["group_key"] == "全部 RSS"`. -/
def isCatchallRss (wgs : List WordGroup) : Bool :=
  match wgs with
  | [g] => g.group_key = "全部 RSS"
  | _ => false

/-- The group the RSS loop assigns an accepted item to. -/
def findAssignedGroupRss (wm : String → String → Bool) (wgs : List WordGroup)
    (t : String) : Option WordGroup :=
  wgs.find? (fun g => if isCatchallRss wgs then true else rssGroupMatch wm g t)

/-- `{item["url"]: idx + 1}` over the items sorted by `published_at` descending
(stable; later duplicate urls overwrite). -/
def rssUrlToRank (items : List RssItem) : List (String × Nat) :=
  let sorted_items := pySorted (fun a b => strLeB b.published_at a.published_at) items
  sorted_items.enum.foldl (fun m p => alInsert p.2.url (p.1 + 1) m) []

/-- The `new_urls` set: urls of the supplied new items, skipping falsy urls. -/
def rssNewUrls (new_items : List RssItem) : List String :=
  new_items.foldl (fun acc it => if it.url ≠ "" then acc ++ [it.url] else acc) []

/-- First rank of the list, 999 when empty
(`x["ranks"][0] if x["ranks"] else 999`). -/
def firstRankOr999 (l : List Nat) : Nat :=
  match l with
  | r :: _ => r
  | [] => 999

/-- RSS per-group title order: ascending synthesized rank. -/
def rssTitleLe (a b : RssSummary) : Bool :=
  decide (firstRankOr999 a.ranks ≤ firstRankOr999 b.ranks)

/-- Final ordering of RSS group statistics (same comparison as the ranked
variant's). -/
def rssStatsLe (byPos : Bool) (a b : RssStat) : Bool :=
  if byPos then
    if a.position ≠ b.position then decide (a.position < b.position)
    else decide (b.count ≤ a.count)
  else
    if a.count ≠ b.count then decide (b.count < a.count)
    else decide (a.position ≤ b.position)

/-- Body of the RSS loop for one item: dedup by url, mark processed, acceptance
check, then record construction and assignment to the first matching group. -/
def rssStep (wm : String → String → Bool) (wgs : List WordGroup)
    (filter_words global_filters : List String) (new_urls : List String)
    (url_to_rank : List (String × Nat)) (thr : Nat) (fmtTime : String → String)
    (st : List (String × RssBucket) × List String) (item : RssItem) :
    List (String × RssBucket) × List String :=
  let title := item.title
  let url := item.url
  if url ≠ "" ∧ st.2.contains url then st
  else
    let processed := if url ≠ "" then st.2 ++ [url] else st.2
    if !matchesWordGroups wm wgs filter_words global_filters title then (st.1, processed)
    else
      match findAssignedGroupRss wm wgs (pyLower title) with
      | some g =>
        let published_at := item.published_at
        let time_display := if published_at ≠ "" then fmtTime published_at else ""
        let is_new := if url ≠ "" then new_urls.contains url else false
        let rank := if url ≠ "" then (alGet url url_to_rank).getD 99 else 99
        let td : RssSummary :=
          { title := title
            source_name := item.feed_name?.getD (item.feed_id?.getD "RSS")
            time_display := time_display
            count := 1
            ranks := [rank]
            rank_threshold := thr
            url := url
            mobile_url := ""
            image_url := item.image_url
            is_new := is_new }
        (alModify g.group_key (fun b => ⟨b.count + 1, b.titles ++ [td]⟩) st.1, processed)
      | none => (st.1, processed)

/-- One step of the RSS `stats` construction: zero-count groups are skipped,
titles are sorted by synthesized rank and capped, display name / position /
percentage as in the ranked variant. -/
def rssStatStep (posMap maxCountMap : List (String × Nat))
    (displayMap : List (String × Option String)) (max_news_per_keyword : Nat)
    (total_items : Nat) (acc : List RssStat) (gb : String × RssBucket) :
    List RssStat :=
  if gb.2.count = 0 then acc
  else
    let sorted0 := pySorted rssTitleLe gb.2.titles
    let gmax0 := (alGet gb.1 maxCountMap).getD 0
    let gmax := if gmax0 = 0 then max_news_per_keyword else gmax0
    let sorted_titles := if gmax > 0 then sorted0.take gmax else sorted0
    let display_word :=
      match (alGet gb.1 displayMap).getD none with
      | some s => if s = "" then gb.1 else s
      | none => gb.1
    acc ++ [{ word := display_word
              count := gb.2.count
              position := (alGet gb.1 posMap).getD 999
              titles := sorted_titles
              percentage :=
                if total_items > 0 then
                  pyRound2 (qMul (qDiv (gb.2.count : ℚ) (total_items : ℚ)) 100)
                else 0 }]

/-- Build the RSS `stats` list. -/
def rssBuildStats (word_groups : List WordGroup) (max_news_per_keyword : Nat)
    (total_items : Nat) (word_stats : List (String × RssBucket)) : List RssStat :=
  let posMap := word_groups.enum.foldl (fun m p => alInsert p.2.group_key p.1 m) []
  let maxCountMap := word_groups.foldl (fun m g => alInsert g.group_key g.max_count m) []
  let displayMap := word_groups.foldl (fun m g => alInsert g.group_key g.display_name m) []
  word_stats.foldl
    (rssStatStep posMap maxCountMap displayMap max_news_per_keyword total_items) []

/-- `count_rss_frequency`: empty item list short-circuits; empty rules
degenerate to the `全部 RSS` catch-all; ranks are synthesized from recency
order of `published_at`; dedup and `is_new` are keyed by url. -/
def count_rss_frequency (wm : String → String → Bool) (rss_items : List RssItem)
    (word_groups0 : List WordGroup) (filter_words0 : List String)
    (global_filters : List String) (new_items : List RssItem)
    (max_news_per_keyword : Nat) (sort_by_position_first : Bool)
    (rank_threshold : Nat) (fmtTime : String → String) : List RssStat × Nat :=
  if rss_items.isEmpty then ([], 0)
  else
    let word_groups :=
      if word_groups0.isEmpty then [WordGroup.mk [] [] "全部 RSS" none 0] else word_groups0
    let filter_words := if word_groups0.isEmpty then [] else filter_words0
    let new_urls := rssNewUrls new_items
    let word_stats0 : List (String × RssBucket) :=
      word_groups.foldl (fun ws g => alInsert g.group_key ⟨0, []⟩ ws) []
    let url_to_rank := rssUrlToRank rss_items
    let total_items := rss_items.length
    let final := rss_items.foldl
      (rssStep wm word_groups filter_words global_filters new_urls url_to_rank
        rank_threshold fmtTime) (word_stats0, [])
    let stats := rssBuildStats word_groups max_news_per_keyword total_items final.1
    (pySorted (rssStatsLe sort_by_position_first) stats, total_items)

/-! ### Scaffolding predicates used by the theorems -/

/-- Every summary stored anywhere in a `word_stats` dict satisfies `P`. -/
def AllWS (P : Summary → Prop) (ws : List (String × Bucket)) : Prop :=
  ∀ gb ∈ ws, ∀ sb ∈ gb.2.titles, ∀ s ∈ sb.2, P s

/-- Sum of the per-group counters of a `word_stats` dict. -/
def sumCounts (ws : List (String × Bucket)) : Nat :=
  (ws.map (fun gb => gb.2.count)).sum

/-- Boolean check that a summary's `(source, title)` is recorded in the
new-items index: some source entry contains the title, with the summary's
source name obtained from that source id. -/
def inNewIndexB (new_titles : Results) (id_to_name : List (String × String))
    (s : Summary) : Bool :=
  new_titles.any (fun sp =>
    alMem s.title sp.2 && decide (s.source_name = (alGet sp.1 id_to_name).getD sp.1))

/-- Boolean check that some history entry carries the summary's title with the
given last-seen time. -/
def hasHistRecordB (ti : TitleInfo) (m : String) (s : Summary) : Bool :=
  (alPairs ti).any (fun q => decide (q.2.1 = s.title) && decide (q.2.2.last_time = m))

/-! ### Theorems -/

/-- Bridge: every rational is its numerator over its denominator. -/
theorem rat_mul_den_eq_num (a : ℚ) : a * (a.den : ℚ) = (a.num : ℚ) := by
  have ha : ((a.den : ℚ)) ≠ 0 := Nat.cast_ne_zero.mpr a.den_nz
  nth_rewrite 1 [← Rat.num_div_den a]
  exact div_mul_cancel₀ _ ha

/-- Bridge: `qAdd` is rational addition. -/
theorem qAdd_eq (a b : ℚ) : qAdd a b = a + b := by
  have ha : ((a.den : ℚ)) ≠ 0 := Nat.cast_ne_zero.mpr a.den_nz
  have hb : ((b.den : ℚ)) ≠ 0 := Nat.cast_ne_zero.mpr b.den_nz
  rw [qAdd, Rat.divInt_eq_div]
  push_cast
  rw [div_eq_iff (mul_ne_zero ha hb)]
  rw [← rat_mul_den_eq_num a, ← rat_mul_den_eq_num b]
  ring

/-- Bridge: `qSub` is rational subtraction. -/
theorem qSub_eq (a b : ℚ) : qSub a b = a - b := by
  have ha : ((a.den : ℚ)) ≠ 0 := Nat.cast_ne_zero.mpr a.den_nz
  have hb : ((b.den : ℚ)) ≠ 0 := Nat.cast_ne_zero.mpr b.den_nz
  rw [qSub, Rat.divInt_eq_div]
  push_cast
  rw [div_eq_iff (mul_ne_zero ha hb)]
  rw [← rat_mul_den_eq_num a, ← rat_mul_den_eq_num b]
  ring

/-- Bridge: `qMul` is rational multiplication. -/
theorem qMul_eq (a b : ℚ) : qMul a b = a * b := by
  have ha : ((a.den : ℚ)) ≠ 0 := Nat.cast_ne_zero.mpr a.den_nz
  have hb : ((b.den : ℚ)) ≠ 0 := Nat.cast_ne_zero.mpr b.den_nz
  rw [qMul, Rat.divInt_eq_div]
  push_cast
  rw [div_eq_iff (mul_ne_zero ha hb)]
  rw [← rat_mul_den_eq_num a, ← rat_mul_den_eq_num b]
  ring

/-- Bridge: `qDiv` is rational division. -/
theorem qDiv_eq (a b : ℚ) : qDiv a b = a / b := by
  rcases eq_or_ne b 0 with hb0 | hb0
  · subst hb0
    rw [qDiv]
    simp [Rat.divInt_eq_div]
  · have ha : ((a.den : ℚ)) ≠ 0 := Nat.cast_ne_zero.mpr a.den_nz
    have hbn : ((b.num : ℚ)) ≠ 0 := by
      exact_mod_cast Rat.num_ne_zero.mpr hb0
    rw [qDiv, Rat.divInt_eq_div]
    push_cast
    rw [div_eq_div_iff (mul_ne_zero ha hbn) hb0]
    rw [← rat_mul_den_eq_num a, ← rat_mul_den_eq_num b]
    ring

/-- Bridge: `qSum` is the rational list sum. -/
theorem qSum_eq (l : List ℚ) : qSum l = l.sum := by
  induction l with
  | nil => rfl
  | cons x xs ih =>
    rw [List.sum_cons, ← ih]
    rw [show qSum (x :: xs) = qAdd x (qSum xs) from rfl, qAdd_eq]

/-- Bridge: `qLtB` decides rational strict order. -/
theorem qLtB_iff (a b : ℚ) : qLtB a b = true ↔ a < b := by
  have hda : (0 : ℚ) < ((a.den : ℚ)) := by
    exact_mod_cast Nat.pos_of_ne_zero a.den_nz
  have hdb : (0 : ℚ) < ((b.den : ℚ)) := by
    exact_mod_cast Nat.pos_of_ne_zero b.den_nz
  rw [qLtB, decide_eq_true_iff]
  conv_rhs => rw [← Rat.num_div_den a, ← Rat.num_div_den b]
  rw [div_lt_div_iff₀ hda hdb]
  exact_mod_cast Iff.rfl

/-- Bridge: `calculate_rank_weight` in standard rational arithmetic. -/
theorem calculate_rank_weight_eq (ranks : List Nat) :
    calculate_rank_weight ranks =
      if ranks.length = 0 then 0
      else (ranks.map
          (fun r => (BASE_RANK_SCORE : ℚ) - ((min r MAX_RANK_SCORE : Nat) : ℚ))).sum
        / (ranks.length : ℚ) := by
  rw [calculate_rank_weight]
  by_cases h : ranks.length = 0
  · simp [h]
  · simp only [h, if_false, qDiv_eq, qSum_eq]
    have hm : (ranks.map
          (fun r => qSub (BASE_RANK_SCORE : ℚ) ((min r MAX_RANK_SCORE : Nat) : ℚ)))
        = ranks.map
          (fun r => (BASE_RANK_SCORE : ℚ) - ((min r MAX_RANK_SCORE : Nat) : ℚ)) := by
      refine List.map_congr_left ?_
      intro r _
      rw [qSub_eq]
    rw [hm]

/-- Bridge: `calculate_frequency_weight` in standard rational arithmetic. -/
theorem calculate_frequency_weight_eq (count : Nat) :
    calculate_frequency_weight count =
      ((min count MAX_RANK_SCORE : Nat) : ℚ) * (FREQUENCY_MULTIPLIER : ℚ) := by
  rw [calculate_frequency_weight, qMul_eq]

/-- Bridge: `calculate_hotness_weight` in standard rational arithmetic. -/
theorem calculate_hotness_weight_eq (ranks : List Nat) (thr : Nat) :
    calculate_hotness_weight ranks thr =
      if ranks.length = 0 then 0
      else ((ranks.filter (fun r => r ≤ thr)).length : ℚ) / (ranks.length : ℚ)
        * (HOTNESS_MULTIPLIER : ℚ) := by
  rw [calculate_hotness_weight]
  by_cases h : ranks.length = 0 <;> simp [h, qMul_eq, qDiv_eq]

/-- Bridge: `calculate_news_weight` in standard rational arithmetic. -/
theorem calculate_news_weight_eq (ranks : List Nat) (count? : Option Nat)
    (thr : Nat) (w : WeightConfig) :
    calculate_news_weight ranks count? thr w =
      if ranks.length = 0 then 0
      else calculate_rank_weight ranks * w.RANK_WEIGHT
        + calculate_frequency_weight (count?.getD ranks.length) * w.FREQUENCY_WEIGHT
        + calculate_hotness_weight ranks thr * w.HOTNESS_WEIGHT := by
  rw [calculate_news_weight]
  by_cases h : ranks.length = 0 <;> simp [h, qAdd_eq, qMul_eq]

/-- Bridge: the default weights are 0.4, 0.3, 0.3. -/
theorem default_weights_eq :
    DEFAULT_RANK_WEIGHT = 2/5 ∧ DEFAULT_FREQUENCY_WEIGHT = 3/10 ∧
      DEFAULT_HOTNESS_WEIGHT = 3/10 := by
  refine ⟨?_, ?_, ?_⟩
  · rw [DEFAULT_RANK_WEIGHT, Rat.mkRat_eq_div]
    norm_num
  · rw [DEFAULT_FREQUENCY_WEIGHT, Rat.mkRat_eq_div]
    norm_num
  · rw [DEFAULT_HOTNESS_WEIGHT, Rat.mkRat_eq_div]
    norm_num

/-- C2: for every `title_data`, `rank_threshold` and weight configuration,
`calculate_news_weight` returns 0 when the rank list is empty, and otherwise
`rank_component*W_rank + frequency_component*W_freq + hotness_component*W_hot`,
where `rank_component` is the mean over observed ranks `r` of `11 - min(r, 10)`,
`frequency_component` is `min(occurrence_count, 10) * 10` (the occurrence count
defaulting to the number of ranks when the `count` key is absent), and
`hotness_component` is the fraction of ranks `≤ rank_threshold`, times 100. -/
theorem news_weight_formula (ranks : List Nat) (count? : Option Nat)
    (thr : Nat) (w : WeightConfig) :
    calculate_news_weight ranks count? thr w =
      if ranks.length = 0 then 0
      else
        ((ranks.map (fun r : ℕ => (11 : ℚ) - min (r : ℚ) 10)).sum / (ranks.length : ℚ))
            * w.RANK_WEIGHT
          + min ((count?.getD ranks.length : Nat) : ℚ) 10 * 10 * w.FREQUENCY_WEIGHT
          + ((ranks.filter (fun r => r ≤ thr)).length : ℚ) / (ranks.length : ℚ) * 100
            * w.HOTNESS_WEIGHT := by
  rw [calculate_news_weight_eq]
  by_cases h : ranks.length = 0
  · simp [h]
  · have hmap : ranks.map (fun r : ℕ => (11 : ℚ) - min (r : ℚ) 10)
        = ranks.map (fun r => (BASE_RANK_SCORE : ℚ) - ((min r MAX_RANK_SCORE : Nat) : ℚ)) := by
      refine List.map_congr_left ?_
      intro r _
      push_cast [BASE_RANK_SCORE, MAX_RANK_SCORE]
      ring
    have hfreq : min ((count?.getD ranks.length : Nat) : ℚ) 10
        = ((min (count?.getD ranks.length) MAX_RANK_SCORE : Nat) : ℚ) := by
      push_cast [MAX_RANK_SCORE]
      ring
    simp only [calculate_rank_weight_eq, calculate_frequency_weight_eq,
      calculate_hotness_weight_eq, FREQUENCY_MULTIPLIER, HOTNESS_MULTIPLIER, h, if_false,
      hmap, hfreq]
    push_cast
    ring

/-- Helper: `find?` returns exactly the first element satisfying the predicate. -/
theorem find?_first_iff {α : Type} (p : α → Bool) (l : List α) (a : α) :
    l.find? p = some a ↔
      ∃ pre post, l = pre ++ a :: post ∧ p a = true ∧ ∀ b ∈ pre, p b = false := by
  induction l with
  | nil => simp [List.find?]
  | cons x xs ih =>
    by_cases hx : p x
    · rw [List.find?_cons_of_pos _ hx]
      constructor
      · intro h
        injection h with h
        subst h
        exact ⟨[], xs, rfl, hx, by simp⟩
      · rintro ⟨pre, post, heq, hpa, hpre⟩
        match pre, heq, hpre with
        | [], heq, _ =>
          injection heq with h1 h2
          rw [h1]
        | y :: ys, heq, hpre =>
          injection heq with h1 h2
          exfalso
          rw [h1] at hx
          rw [hpre y (List.mem_cons_self y ys)] at hx
          exact Bool.noConfusion hx
    · rw [List.find?_cons_of_neg _ hx]
      rw [ih]
      constructor
      · rintro ⟨pre, post, heq, hpa, hpre⟩
        refine ⟨x :: pre, post, by rw [heq]; rfl, hpa, ?_⟩
        intro b hb
        rcases List.mem_cons.mp hb with hb | hb
        · subst hb
          exact Bool.not_eq_true _ ▸ Bool.of_not_eq_true hx
        · exact hpre b hb
      · rintro ⟨pre, post, heq, hpa, hpre⟩
        match pre, heq, hpre with
        | [], heq, _ =>
          injection heq with h1 h2
          exfalso
          rw [h1] at hx
          exact hx hpa
        | y :: ys, heq, hpre =>
          injection heq with h1 h2
          exact ⟨ys, post, h2, hpa, fun b hb => hpre b (List.mem_cons_of_mem y hb)⟩

/-- Helper: the inline re-check of the aggregation loop reduces to
`(required empty or all required match) and (normal empty or some normal match)`;
in particular a group with both lists empty matches unconditionally. -/
theorem groupInlineMatch_eq (wm : String → String → Bool) (g : WordGroup) (t : String) :
    groupInlineMatch wm g t =
      ((g.required.isEmpty || g.required.all (fun w => wm w t))
        && (g.normal.isEmpty || g.normal.any (fun w => wm w t))) := by
  unfold groupInlineMatch
  cases hreq : g.required.isEmpty <;> cases hnorm : g.normal.isEmpty <;>
    cases hra : g.required.all (fun w => wm w t) <;>
      cases hna : g.normal.any (fun w => wm w t) <;>
        simp [hreq, hnorm, hra, hna]

/-- C1, counterexample: under the spec's condition a group with both lists empty
never matches, so the title "foo" — accepted for inclusion via the second group —
should land in the second group; the aggregation loop instead assigns it to the
first group, whose `required` and `normal` lists are both empty. -/
theorem group_assignment_cex :
    matchesWordGroups wmLit
      [WordGroup.mk [] [] "G1" none 0, WordGroup.mk [] ["foo"] "G2" none 0]
      [] [] "foo" = true ∧
    (findAssignedGroup wmLit
        [WordGroup.mk [] [] "G1" none 0, WordGroup.mk [] ["foo"] "G2" none 0]
        (pyLower "foo")).map (fun g => g.group_key) = some "G1" ∧
    (([WordGroup.mk [] [] "G1" none 0, WordGroup.mk [] ["foo"] "G2" none 0].find?
        (fun g => groupSpecMatch wmLit g (pyLower "foo"))).map
        (fun g => g.group_key)) = some "G2" := by
  refine ⟨?_, ?_, ?_⟩ <;> decide

/-- C1, amended: for every matcher and every rule set other than the singleton
catch-all keyed `全部新闻`, the aggregation loop assigns an accepted title to the
first group in declaration order whose condition holds, where a group's condition
is: every required entry matches when `required` is non-empty, and at least one
normal entry matches when `normal` is non-empty — hence a group with both
`required` and `normal` empty always matches (rather than never, as claimed). -/
theorem group_assignment_amended (wm : String → String → Bool) (wgs : List WordGroup)
    (t : String) (g : WordGroup) (hnc : isCatchallNews wgs = false) :
    findAssignedGroup wm wgs t = some g ↔
      ∃ pre post, wgs = pre ++ g :: post ∧
        ((g.required.isEmpty || g.required.all (fun w => wm w t))
          && (g.normal.isEmpty || g.normal.any (fun w => wm w t))) = true ∧
        ∀ g' ∈ pre,
          ((g'.required.isEmpty || g'.required.all (fun w => wm w t))
            && (g'.normal.isEmpty || g'.normal.any (fun w => wm w t))) = false := by
  unfold findAssignedGroup
  simp only [hnc, Bool.false_eq_true, if_false, groupInlineMatch_eq]
  exact find?_first_iff _ wgs g

/-- Witness for C1's amended theorem: a one-group rule set, title "foo". -/
theorem group_assignment_amended_witness :
    isCatchallNews [WordGroup.mk [] ["foo"] "G2" none 0] = false ∧
    findAssignedGroup wmLit [WordGroup.mk [] ["foo"] "G2" none 0] "foo"
      = some (WordGroup.mk [] ["foo"] "G2" none 0) :=
  ⟨rfl, (group_assignment_amended wmLit [WordGroup.mk [] ["foo"] "G2" none 0] "foo"
      (WordGroup.mk [] ["foo"] "G2" none 0) rfl).mpr
    ⟨[], [], rfl, by decide, by simp⟩⟩

/-- C7, counterexample: on ranks `[2,2,5]`, occurrence count 3, threshold 3 and the
default weights, the rank component is exactly 8 (not about 7.33) and the total
weight is exactly 161/5 = 32.2 (not about 31.9). -/
theorem scenario_weight_cex :
    calculate_rank_weight [2, 2, 5] = 8 ∧
    calculate_news_weight [2, 2, 5] (some 3) 3 {} = 161/5 ∧
    ¬ |calculate_rank_weight [2, 2, 5] - 733/100| ≤ 1/200 ∧
    ¬ |calculate_news_weight [2, 2, 5] (some 3) 3 {} - 319/10| ≤ 1/20 := by
  have h1 : calculate_rank_weight [2, 2, 5] = 8 := by
    norm_num [calculate_rank_weight_eq, MAX_RANK_SCORE, BASE_RANK_SCORE]
  have h2 : calculate_news_weight [2, 2, 5] (some 3) 3 {} = 161/5 := by
    norm_num [calculate_news_weight_eq, h1, calculate_frequency_weight_eq,
      calculate_hotness_weight_eq, MAX_RANK_SCORE, FREQUENCY_MULTIPLIER, HOTNESS_MULTIPLIER,
      DEFAULT_RANK_WEIGHT, DEFAULT_FREQUENCY_WEIGHT, DEFAULT_HOTNESS_WEIGHT,
      Rat.mkRat_eq_div, List.filter]
  refine ⟨h1, h2, ?_, ?_⟩
  · rw [h1, show (8 : ℚ) - 733/100 = 67/100 by norm_num,
      abs_of_pos (show (0 : ℚ) < 67/100 by norm_num)]
    norm_num
  · rw [h2, show (161 : ℚ)/5 - 319/10 = 3/10 by norm_num,
      abs_of_pos (show (0 : ℚ) < 3/10 by norm_num)]
    norm_num

/-- C7, amended: on ranks `[2,2,5]`, occurrence count 3, threshold 3 and the default
weights, `calculate_news_weight` yields a rank component of exactly 8 and a total
weight of exactly 161/5 = 32.2. -/
theorem scenario_weight_amended :
    calculate_rank_weight [2, 2, 5] = 8 ∧
    calculate_news_weight [2, 2, 5] (some 3) 3 {} = 161/5 := by
  have h1 : calculate_rank_weight [2, 2, 5] = 8 := by
    norm_num [calculate_rank_weight_eq, MAX_RANK_SCORE, BASE_RANK_SCORE]
  refine ⟨h1, ?_⟩
  norm_num [calculate_news_weight_eq, h1, calculate_frequency_weight_eq,
    calculate_hotness_weight_eq, MAX_RANK_SCORE, FREQUENCY_MULTIPLIER, HOTNESS_MULTIPLIER,
    DEFAULT_RANK_WEIGHT, DEFAULT_FREQUENCY_WEIGHT, DEFAULT_HOTNESS_WEIGHT,
    Rat.mkRat_eq_div, List.filter]

/-- C6, counterexample: with equal occurrence counts (1), the same threshold (3) and
the default weights, the input with ranks `[1,10,10,10]` has the strictly smaller
minimum rank yet a strictly smaller weight than the input with ranks `[2]`. -/
theorem weight_monotonicity_cex :
    listMin [1, 10, 10, 10] 999 < listMin [2] 999 ∧
    calculate_news_weight [1, 10, 10, 10] (some 1) 3 {} <
      calculate_news_weight [2] (some 1) 3 {} := by
  constructor
  · norm_num [listMin]
  · norm_num [calculate_news_weight_eq, calculate_rank_weight_eq,
      calculate_frequency_weight_eq, calculate_hotness_weight_eq, MAX_RANK_SCORE,
      BASE_RANK_SCORE, FREQUENCY_MULTIPLIER, HOTNESS_MULTIPLIER, DEFAULT_RANK_WEIGHT,
      DEFAULT_FREQUENCY_WEIGHT, DEFAULT_HOTNESS_WEIGHT, Rat.mkRat_eq_div, List.filter]

/-- C6, amended: restricted to singleton rank lists and nonnegative rank/hotness
weights, with the same occurrence count data and the same threshold, a strictly
smaller rank never yields a strictly smaller weight. -/
theorem weight_monotonicity_amended (r1 r2 : Nat) (c : Option Nat) (thr : Nat)
    (w : WeightConfig) (hr : 0 ≤ w.RANK_WEIGHT) (hh : 0 ≤ w.HOTNESS_WEIGHT)
    (h : r1 < r2) :
    calculate_news_weight [r2] c thr w ≤ calculate_news_weight [r1] c thr w := by
  have hcrw : ∀ r : Nat, calculate_rank_weight [r]
      = (BASE_RANK_SCORE : ℚ) - ((min r MAX_RANK_SCORE : Nat) : ℚ) := by
    intro r
    rw [calculate_rank_weight_eq]
    simp
  have ha : calculate_rank_weight [r2] ≤ calculate_rank_weight [r1] := by
    rw [hcrw, hcrw]
    have hm : ((min r1 MAX_RANK_SCORE : Nat) : ℚ) ≤ ((min r2 MAX_RANK_SCORE : Nat) : ℚ) := by
      exact_mod_cast min_le_min (Nat.le_of_lt h) (le_refl MAX_RANK_SCORE)
    exact sub_le_sub_left hm _
  have hhot : ∀ r : Nat, calculate_hotness_weight [r] thr
      = if r ≤ thr then (HOTNESS_MULTIPLIER : ℚ) else 0 := by
    intro r
    rw [calculate_hotness_weight_eq]
    by_cases hrt : r ≤ thr <;> simp [List.filter, hrt]
  have hb : calculate_hotness_weight [r2] thr ≤ calculate_hotness_weight [r1] thr := by
    rw [hhot, hhot]
    by_cases h2 : r2 ≤ thr
    · have h1 : r1 ≤ thr := Nat.le_of_lt (Nat.lt_of_lt_of_le h h2)
      simp [h1, h2]
    · by_cases h1 : r1 ≤ thr <;> simp [h1, h2, HOTNESS_MULTIPLIER]
  have hcnw : ∀ r : Nat, calculate_news_weight [r] c thr w
      = calculate_rank_weight [r] * w.RANK_WEIGHT
        + calculate_frequency_weight (c.getD 1) * w.FREQUENCY_WEIGHT
        + calculate_hotness_weight [r] thr * w.HOTNESS_WEIGHT := by
    intro r
    rw [calculate_news_weight_eq]
    simp
  rw [hcnw, hcnw]
  exact add_le_add (add_le_add (mul_le_mul_of_nonneg_right ha hr) le_rfl)
    (mul_le_mul_of_nonneg_right hb hh)

/-- Witness for C6's amended theorem at ranks 1 and 2, count 1, threshold 3,
default weights. -/
theorem weight_monotonicity_amended_witness :
    (0 ≤ ({} : WeightConfig).RANK_WEIGHT ∧ 0 ≤ ({} : WeightConfig).HOTNESS_WEIGHT ∧
      1 < 2) ∧
    calculate_news_weight [2] (some 1) 3 {} ≤ calculate_news_weight [1] (some 1) 3 {} := by
  have hr : (0 : ℚ) ≤ ({} : WeightConfig).RANK_WEIGHT := by
    norm_num [DEFAULT_RANK_WEIGHT, Rat.mkRat_eq_div]
  have hh : (0 : ℚ) ≤ ({} : WeightConfig).HOTNESS_WEIGHT := by
    norm_num [DEFAULT_HOTNESS_WEIGHT, Rat.mkRat_eq_div]
  exact ⟨⟨hr, hh, by norm_num⟩,
    weight_monotonicity_amended 1 2 (some 1) 3 {} hr hh (by norm_num)⟩

/-- Helper: stable insertion is a permutation of consing. -/
theorem insOrd_perm {α : Type} (le : α → α → Bool) (x : α) (l : List α) :
    (insOrd le x l).Perm (x :: l) := by
  induction l with
  | nil => simp [insOrd]
  | cons b bs ih =>
    rw [insOrd]
    by_cases h : le x b
    · simp [h]
    · simp only [h, if_false]
      exact (ih.cons b).trans (List.Perm.swap x b bs)

/-- Helper: the stable sort is a permutation of its input. -/
theorem pySorted_perm {α : Type} (le : α → α → Bool) (l : List α) :
    (pySorted le l).Perm l := by
  induction l with
  | nil => exact List.Perm.refl _
  | cons x xs ih => exact (insOrd_perm le x (pySorted le xs)).trans (ih.cons x)

/-- Helper: sorting preserves membership. -/
theorem mem_pySorted {α : Type} (le : α → α → Bool) (a : α) (l : List α) :
    a ∈ pySorted le l ↔ a ∈ l :=
  (pySorted_perm le l).mem_iff

/-- Helper: a member of `alInsert k v l` is `(k, v)` or a member of `l`. -/
theorem mem_alInsert {V : Type} (k : String) (v : V) (l : List (String × V))
    (p : String × V) (hp : p ∈ alInsert k v l) : p = (k, v) ∨ p ∈ l := by
  induction l with
  | nil =>
    rw [alInsert] at hp
    exact Or.inl (List.mem_singleton.mp hp)
  | cons q rest ih =>
    obtain ⟨k', v'⟩ := q
    rw [alInsert] at hp
    by_cases h : k' = k
    · rw [if_pos h] at hp
      rcases List.mem_cons.mp hp with h1 | h1
      · exact Or.inl h1
      · exact Or.inr (List.mem_cons_of_mem _ h1)
    · rw [if_neg h] at hp
      rcases List.mem_cons.mp hp with h1 | h1
      · exact Or.inr (h1 ▸ List.mem_cons_self _ _)
      · rcases ih h1 with h2 | h2
        · exact Or.inl h2
        · exact Or.inr (List.mem_cons_of_mem _ h2)

/-- Helper: a member of `alModify k f l` is a member of `l` or the image under
`f` of a member with the same key. -/
theorem mem_alModify {V : Type} (k : String) (f : V → V) (l : List (String × V))
    (p : String × V) (hp : p ∈ alModify k f l) :
    p ∈ l ∨ ∃ v, (p.1, v) ∈ l ∧ p.2 = f v := by
  induction l with
  | nil =>
    rw [alModify] at hp
    cases hp
  | cons q rest ih =>
    obtain ⟨k', v'⟩ := q
    rw [alModify] at hp
    by_cases h : k' = k
    · rw [if_pos h] at hp
      rcases List.mem_cons.mp hp with h1 | h1
      · subst h1
        exact Or.inr ⟨v', List.mem_cons_self _ _, rfl⟩
      · exact Or.inl (List.mem_cons_of_mem _ h1)
    · rw [if_neg h] at hp
      rcases List.mem_cons.mp hp with h1 | h1
      · exact Or.inl (h1 ▸ List.mem_cons_self _ _)
      · rcases ih h1 with h2 | h2
        · exact Or.inl (List.mem_cons_of_mem _ h2)
        · rcases h2 with ⟨v, hv, hpv⟩
          exact Or.inr ⟨v, List.mem_cons_of_mem _ hv, hpv⟩

/-- Helper: a recorded binding makes `alGet` succeed. -/
theorem alGet_isSome_of_mem {V : Type} {k : String} {v : V} {l : List (String × V)}
    (h : (k, v) ∈ l) : (alGet k l).isSome = true := by
  induction l with
  | nil => cases h
  | cons q rest ih =>
    obtain ⟨k', v'⟩ := q
    rw [alGet]
    by_cases hk : k' = k
    · simp [hk]
    · simp only [hk, if_false]
      rcases List.mem_cons.mp h with h1 | h1
      · cases h1
        exact absurd rfl hk
      · exact ih h1

/-- Helper: a successful `alGet` comes from a recorded binding. -/
theorem alGet_mem {V : Type} {k : String} {v : V} {l : List (String × V)}
    (h : alGet k l = some v) : (k, v) ∈ l := by
  induction l with
  | nil => simp [alGet] at h
  | cons q rest ih =>
    obtain ⟨k', v'⟩ := q
    rw [alGet] at h
    by_cases hk : k' = k
    · simp only [hk, if_true, Option.some.injEq] at h
      subst h
      subst hk
      exact List.mem_cons_self _ _
    · simp only [hk, if_false] at h
      exact List.mem_cons_of_mem _ (ih h)

/-- Helper: introduction form for membership in the flattened dict of dicts. -/
theorem mem_alPairs_intro {V : Type} {l : List (String × List (String × V))}
    {s : String × List (String × V)} {p : String × V}
    (hs : s ∈ l) (hp : p ∈ s.2) : (s.1, p.1, p.2) ∈ alPairs l := by
  rw [alPairs, List.mem_flatMap]
  exact ⟨s, hs, List.mem_map.mpr ⟨p, hp, rfl⟩⟩

/-- Helper: elimination form for membership in the flattened dict of dicts. -/
theorem alPairs_elim {V : Type} {l : List (String × List (String × V))}
    {q : String × String × V} (h : q ∈ alPairs l) :
    ∃ inner, (q.1, inner) ∈ l ∧ (q.2.1, q.2.2) ∈ inner := by
  rw [alPairs, List.mem_flatMap] at h
  obtain ⟨s, hs, hq⟩ := h
  obtain ⟨p, hp, rfl⟩ := List.mem_map.mp hq
  exact ⟨s.2, hs, hp⟩

/-- Helper: `alPairs` distributes over append. -/
theorem alPairs_append {V : Type} (l1 l2 : List (String × List (String × V))) :
    alPairs (l1 ++ l2) = alPairs l1 ++ alPairs l2 := by
  rw [alPairs, alPairs, alPairs, List.flatMap_append]

/-- Helper: the freshly initialised buckets contain no summaries. -/
theorem allWS_init (P : Summary → Prop) (wgs : List WordGroup) :
    AllWS P (initialize_word_stats wgs) := by
  rw [initialize_word_stats]
  have key : ∀ (l : List WordGroup) (ws : List (String × Bucket)),
      AllWS P ws → AllWS P (l.foldl (fun ws g => alInsert g.group_key ⟨0, []⟩ ws) ws) := by
    intro l
    induction l with
    | nil =>
      intro ws h
      exact h
    | cons g gs ih =>
      intro ws h
      rw [List.foldl_cons]
      refine ih _ ?_
      intro gb hgb sb hsb s hs
      rcases mem_alInsert _ _ _ _ hgb with h1 | h1
      · subst h1
        cases hsb
      · exact h gb h1 sb hsb s hs
  refine key wgs [] ?_
  intro gb hgb
  cases hgb

/-- Helper: bumping a bucket only adds the freshly processed record. -/
theorem bumpBucket_all (P : Summary → Prop) (src : String) (pd : Summary) (b : Bucket)
    (hb : ∀ sb ∈ b.titles, ∀ s ∈ sb.2, P s) (hpd : P pd) :
    ∀ sb ∈ (bumpBucket src pd b).titles, ∀ s ∈ sb.2, P s := by
  intro sb hsb s hs
  rw [bumpBucket] at hsb
  rcases hget : alGet src b.titles with _ | v <;> simp only [hget] at hsb
  · rcases List.mem_append.mp hsb with h1 | h1
    · exact hb sb h1 s hs
    · rcases List.mem_singleton.mp h1 with rfl
      rcases List.mem_singleton.mp hs with rfl
      exact hpd
  · rcases mem_alModify _ _ _ _ hsb with h1 | ⟨l0, hl0, heq⟩
    · exact hb sb h1 s hs
    · rw [heq] at hs
      rcases List.mem_append.mp hs with h2 | h2
      · exact hb (sb.1, l0) hl0 s h2
      · rcases List.mem_singleton.mp h2 with rfl
        exact hpd

/-- Helper: one inner-loop step preserves a summary invariant. -/
theorem stepTitle_all (cfg : WFConfig) (an : Bool) (src : String) (P : Summary → Prop)
    (st : LoopState) (p : String × TitleData)
    (h : AllWS P st.word_stats)
    (hpd : P (process_title_data cfg p.1 p.2 src an)) :
    AllWS P (stepTitle cfg an src st p).word_stats := by
  rw [stepTitle]
  by_cases h1 : procMem st.processed src p.1
  · simp only [h1, if_true]
    exact h
  · simp only [h1, if_false]
    by_cases h2 : (!matchesWordGroups cfg.wm cfg.word_groups cfg.filter_words
        cfg.global_filters p.1) = true
    · simp only [h2, if_true]
      exact h
    · simp only [h2, if_false]
      rcases hfind : findAssignedGroup cfg.wm cfg.word_groups (pyLower p.1) with _ | g <;>
        simp only [hfind]
      · exact h
      · intro gb hgb
        rcases mem_alModify _ _ _ _ hgb with hmem | ⟨v, hv, heq⟩
        · exact h gb hmem
        · intro sb hsb s hs
          rw [heq] at hsb
          exact bumpBucket_all P src _ v (h (gb.1, v) hv) hpd sb hsb s hs

/-- Helper: the inner loop preserves a summary invariant. -/
theorem foldTitles_all (cfg : WFConfig) (an : Bool) (src : String) (P : Summary → Prop)
    (ps : List (String × TitleData)) (st : LoopState)
    (h : AllWS P st.word_stats)
    (hps : ∀ p ∈ ps, P (process_title_data cfg p.1 p.2 src an)) :
    AllWS P (ps.foldl (stepTitle cfg an src) st).word_stats := by
  induction ps generalizing st with
  | nil => exact h
  | cons p ps ih =>
    rw [List.foldl_cons]
    exact ih _ (stepTitle_all cfg an src P st p h (hps p (List.mem_cons_self _ _)))
      (fun q hq => hps q (List.mem_cons_of_mem _ hq))

/-- Helper: the aggregation loop preserves a summary invariant established for
the items it processes. -/
theorem runLoop_all (cfg : WFConfig) (an : Bool) (toProcess : Results) (P : Summary → Prop)
    (hP : ∀ q ∈ alPairs toProcess, P (process_title_data cfg q.2.1 q.2.2 q.1 an)) :
    AllWS P (runLoop cfg an toProcess).word_stats := by
  rw [runLoop]
  have key : ∀ (l : Results) (st : LoopState), AllWS P st.word_stats →
      (∀ q ∈ alPairs l, P (process_title_data cfg q.2.1 q.2.2 q.1 an)) →
      AllWS P (l.foldl (stepSource cfg an) st).word_stats := by
    intro l
    induction l with
    | nil =>
      intro st h _
      exact h
    | cons sp rest ih =>
      intro st h hq
      rw [List.foldl_cons]
      refine ih _ ?_ ?_
      · rw [stepSource]
        refine foldTitles_all cfg an sp.1 P sp.2 _ h ?_
        intro p hp
        exact hq (sp.1, p.1, p.2) (mem_alPairs_intro (List.mem_cons_self _ _) hp)
      · intro q hqq
        refine hq q ?_
        rw [alPairs, List.flatMap_cons]
        rw [alPairs] at hqq
        exact List.mem_append_right _ hqq
  exact key toProcess _ (allWS_init P cfg.word_groups) hP

/-- Helper: every summary of the formatted output comes from the bucket dict. -/
theorem saf_all (cfg : WFConfig) (ws : List (String × Bucket)) (T : Nat)
    (P : Summary → Prop) (h : AllWS P ws) :
    ∀ st ∈ sort_and_format_stats cfg ws T, ∀ s ∈ st.titles, P s := by
  intro st hst s hs
  simp only [sort_and_format_stats] at hst
  rw [mem_pySorted] at hst
  obtain ⟨gb, hgb, rfl⟩ := List.mem_map.mp hst
  simp only [mkStat] at hs
  have hs0 : s ∈ pySorted (titleLe cfg.rank_threshold cfg.weight_config)
      (gb.2.titles.flatMap (fun sb => sb.2)) := by
    split at hs
    · split at hs
      · exact List.take_subset _ _ hs
      · exact hs
    · split at hs
      · exact List.take_subset _ _ hs
      · exact hs
  rw [mem_pySorted] at hs0
  obtain ⟨sb, hsb, hssb⟩ := List.mem_flatMap.mp hs0
  exact h gb hgb sb hsb s hssb

/-- Helper: the record built with `all_news_are_new = true` is flagged new. -/
theorem ptd_is_new_true (cfg : WFConfig) (t : String) (td : TitleData) (src : String) :
    (process_title_data cfg t td src true).is_new = true := by
  simp [process_title_data]

/-- Helper: the record keeps the processed title. -/
theorem ptd_title (cfg : WFConfig) (t : String) (td : TitleData) (src : String)
    (an : Bool) : (process_title_data cfg t td src an).title = t := rfl

/-- Helper: the record's source name is resolved through `id_to_name`. -/
theorem ptd_source_name (cfg : WFConfig) (t : String) (td : TitleData) (src : String)
    (an : Bool) :
    (process_title_data cfg t td src an).source_name
      = (alGet src cfg.id_to_name).getD src := rfl

section EngineTheorems

variable (wm : String → String → Bool) (results : Results) (wgs0 : List WordGroup)
variable (fw0 : List String) (idn : List (String × String)) (ti : TitleInfo)
variable (thr : Nat) (nt : Results) (mode : String) (gf : List String)
variable (w : WeightConfig) (mx : Nat) (sbp : Bool) (icf : Option Bool)
variable (conv : String → String)

/-- Helper: every emitted summary of `count_word_frequency` satisfies any
property established for the records built from the processed items. -/
theorem cwf_emitted (P : Summary → Prop)
    (hP : ∀ q ∈ alPairs (determine_processing_scope
        (cwfConfig wm wgs0 fw0 idn ti thr nt mode gf w mx sbp icf conv) results).1,
      P (process_title_data
          (cwfConfig wm wgs0 fw0 idn ti thr nt mode gf w mx sbp icf conv)
          q.2.1 q.2.2 q.1
          (determine_processing_scope
            (cwfConfig wm wgs0 fw0 idn ti thr nt mode gf w mx sbp icf conv) results).2)) :
    ∀ st ∈ (count_word_frequency wm results wgs0 fw0 idn ti thr nt mode gf w mx
        sbp icf conv).1, ∀ s ∈ st.titles, P s := by
  intro st hst s hs
  exact saf_all _ _ _ P (runLoop_all _ _ _ P hP) st hst s hs

/-- C4: in incremental mode with a first-crawl predicate returning false, the
working set is exactly the supplied new-items index (with the all-new flag set),
and every emitted summary is flagged new and has its `(source, title)` recorded
in that index. -/
theorem incremental_non_bootstrap :
    (∀ cfg : WFConfig, cfg.mode = "incremental" → cfg.is_first_today = false →
        determine_processing_scope cfg results = (cfg.new_titles, true)) ∧
    ((count_word_frequency wm results wgs0 fw0 idn ti thr nt "incremental" gf w mx
        sbp (some false) conv).1.all
      (fun st => st.titles.all
        (fun s => s.is_new && inNewIndexB nt idn s))) = true := by
  have hscope : ∀ cfg : WFConfig, cfg.mode = "incremental" → cfg.is_first_today = false →
      determine_processing_scope cfg results = (cfg.new_titles, true) := by
    intro cfg hm hf
    rw [determine_processing_scope, hm, hf]
    rcases hnt2 : cfg.new_titles with _ | ⟨p, rest⟩ <;> simp
  refine ⟨hscope, ?_⟩
  rw [List.all_eq_true]
  intro st hst
  rw [List.all_eq_true]
  intro s hs
  refine cwf_emitted wm results wgs0 fw0 idn ti thr nt "incremental" gf w mx sbp
    (some false) conv (fun s => (s.is_new && inNewIndexB nt idn s) = true) ?_ st hst s hs
  intro q hq
  rw [hscope _ rfl rfl] at hq ⊢
  obtain ⟨inner, hinner, hmem⟩ := alPairs_elim hq
  rw [Bool.and_eq_true]
  constructor
  · exact ptd_is_new_true _ _ _ _
  · rw [inNewIndexB, List.any_eq_true]
    refine ⟨(q.1, inner), hinner, ?_⟩
    rw [Bool.and_eq_true]
    constructor
    · rw [ptd_title, alMem]
      exact alGet_isSome_of_mem hmem
    · rw [ptd_source_name]
      exact decide_eq_true rfl

/-- C9: with no first-crawl predicate supplied, the incremental call is the
day's bootstrap: the scope is the whole snapshot with the all-new flag set
(whatever the new-items index holds), and every emitted summary is flagged
new. -/
theorem no_first_crawl_bootstrap :
    (∀ cfg : WFConfig, cfg.mode = "incremental" → cfg.is_first_today = true →
        determine_processing_scope cfg results = (results, true)) ∧
    (cwfConfig wm wgs0 fw0 idn ti thr nt "incremental" gf w mx sbp none
        conv).is_first_today = true ∧
    ((count_word_frequency wm results wgs0 fw0 idn ti thr nt "incremental" gf w mx
        sbp none conv).1.all (fun st => st.titles.all (fun s => s.is_new))) = true := by
  have hscope : ∀ cfg : WFConfig, cfg.mode = "incremental" → cfg.is_first_today = true →
      determine_processing_scope cfg results = (results, true) := by
    intro cfg hm hf
    rw [determine_processing_scope, hm, hf]
    simp
  refine ⟨hscope, rfl, ?_⟩
  rw [List.all_eq_true]
  intro st hst
  rw [List.all_eq_true]
  intro s hs
  refine cwf_emitted wm results wgs0 fw0 idn ti thr nt "incremental" gf w mx sbp
    none conv (fun s => s.is_new = true) ?_ st hst s hs
  intro q hq
  rw [hscope _ rfl rfl]
  exact ptd_is_new_true _ _ _ _

end EngineTheorems

/-- Witness for C4 at a one-source, one-title new-items index. -/
theorem incremental_non_bootstrap_witness :
    ((cwfConfig wmLit [WordGroup.mk [] ["foo"] "G2" none 0] [] [] [] 3
        [("s1", [("foo", TitleData.mk [1] "" "" "")])] "incremental" [] {} 0 false
        (some false) id).mode = "incremental" ∧
      (cwfConfig wmLit [WordGroup.mk [] ["foo"] "G2" none 0] [] [] [] 3
        [("s1", [("foo", TitleData.mk [1] "" "" "")])] "incremental" [] {} 0 false
        (some false) id).is_first_today = false) ∧
    determine_processing_scope
        (cwfConfig wmLit [WordGroup.mk [] ["foo"] "G2" none 0] [] [] [] 3
          [("s1", [("foo", TitleData.mk [1] "" "" "")])] "incremental" [] {} 0 false
          (some false) id) []
      = ([("s1", [("foo", TitleData.mk [1] "" "" "")])], true) ∧
    ((count_word_frequency wmLit [] [WordGroup.mk [] ["foo"] "G2" none 0] [] [] [] 3
        [("s1", [("foo", TitleData.mk [1] "" "" "")])] "incremental" [] {} 0 false
        (some false) id).1.all
      (fun st => st.titles.all
        (fun s => s.is_new &&
          inNewIndexB [("s1", [("foo", TitleData.mk [1] "" "" "")])] [] s))) = true :=
  ⟨⟨rfl, rfl⟩,
    (incremental_non_bootstrap wmLit [] [WordGroup.mk [] ["foo"] "G2" none 0] [] [] []
      3 [("s1", [("foo", TitleData.mk [1] "" "" "")])] [] {} 0 false id).1 _ rfl rfl,
    (incremental_non_bootstrap wmLit [] [WordGroup.mk [] ["foo"] "G2" none 0] [] [] []
      3 [("s1", [("foo", TitleData.mk [1] "" "" "")])] [] {} 0 false id).2⟩

/-- Witness for C9 at a one-source, one-title snapshot and an empty index. -/
theorem no_first_crawl_bootstrap_witness :
    ((cwfConfig wmLit [WordGroup.mk [] ["foo"] "G2" none 0] [] [] [] 3 []
        "incremental" [] {} 0 false none id).mode = "incremental" ∧
      (cwfConfig wmLit [WordGroup.mk [] ["foo"] "G2" none 0] [] [] [] 3 []
        "incremental" [] {} 0 false none id).is_first_today = true) ∧
    determine_processing_scope
        (cwfConfig wmLit [WordGroup.mk [] ["foo"] "G2" none 0] [] [] [] 3 []
          "incremental" [] {} 0 false none id)
        [("s1", [("foo", TitleData.mk [1] "" "" "")])]
      = ([("s1", [("foo", TitleData.mk [1] "" "" "")])], true) ∧
    ((count_word_frequency wmLit [("s1", [("foo", TitleData.mk [1] "" "" "")])]
        [WordGroup.mk [] ["foo"] "G2" none 0] [] [] [] 3 [] "incremental" [] {} 0 false
        none id).1.all (fun st => st.titles.all (fun s => s.is_new))) = true :=
  ⟨⟨rfl, rfl⟩,
    (no_first_crawl_bootstrap wmLit [("s1", [("foo", TitleData.mk [1] "" "" "")])]
      [WordGroup.mk [] ["foo"] "G2" none 0] [] [] [] 3 [] [] {} 0 false id).1 _ rfl rfl,
    (no_first_crawl_bootstrap wmLit [("s1", [("foo", TitleData.mk [1] "" "" "")])]
      [WordGroup.mk [] ["foo"] "G2" none 0] [] [] [] 3 [] [] {} 0 false id).2.2⟩

/-- Helper: `strLtB` decides the string order. -/
theorem strLtB_iff (a b : String) : strLtB a b = true ↔ a < b := by
  rw [strLtB, decide_eq_true_iff]
  exact String.lt_iff_toList_lt.symm

/-- Helper: the `latest_time` scan is a linear fold over all history entries. -/
theorem maxLastTime_eq_fold (ti : TitleInfo) :
    maxLastTime? ti
      = ((alPairs ti).map (fun q => q.2.2.last_time)).foldl lastTimeStep none := by
  rw [maxLastTime?]
  have key : ∀ (l : TitleInfo) (acc : Option String),
      l.foldl (fun a s => s.2.foldl (fun a p => lastTimeStep a p.2.last_time) a) acc
        = ((alPairs l).map (fun q => q.2.2.last_time)).foldl lastTimeStep acc := by
    intro l
    induction l with
    | nil =>
      intro acc
      rfl
    | cons sp rest ih =>
      intro acc
      rw [List.foldl_cons, ih]
      have h1 : alPairs (sp :: rest)
          = (sp.2.map (fun p => (sp.1, p.1, p.2))) ++ alPairs rest := by
        simp only [alPairs, List.flatMap_cons]
      rw [h1, List.map_append, List.foldl_append]
      congr 1
      rw [List.map_map, List.foldl_map]
      rfl
  exact key ti none

/-- Helper: the linear `latest_time` fold returns an attained value that is an
upper bound of all non-empty entries. -/
theorem foldl_lastTimeStep_spec (l : List String) :
    ∀ (acc : Option String) (m : String), l.foldl lastTimeStep acc = some m →
      (acc = some m ∨ (m ∈ l ∧ m ≠ "")) ∧ (∀ x ∈ l, x ≠ "" → x ≤ m) ∧
        (∀ a, acc = some a → a ≤ m) := by
  induction l with
  | nil =>
    intro acc m h
    rw [List.foldl_nil] at h
    refine ⟨Or.inl h, by simp, ?_⟩
    intro a ha
    rw [h] at ha
    injection ha with ha
    exact le_of_eq ha.symm
  | cons x xs ih =>
    intro acc m h
    rw [List.foldl_cons] at h
    obtain ⟨h1, h2, h3⟩ := ih (lastTimeStep acc x) m h
    cases acc with
    | none =>
      by_cases hx : x ≠ ""
      · have hstep : lastTimeStep none x = some x := by
          rw [lastTimeStep]
          rw [if_pos hx]
        rw [hstep] at h1 h3
        have hxm : x ≤ m := h3 x rfl
        refine ⟨?_, ?_, ?_⟩
        · rcases h1 with h1 | h1
          · injection h1 with h1
            subst h1
            exact Or.inr ⟨List.mem_cons_self _ _, hx⟩
          · exact Or.inr ⟨List.mem_cons_of_mem _ h1.1, h1.2⟩
        · intro y hy hy0
          rcases List.mem_cons.mp hy with rfl | hy
          · exact hxm
          · exact h2 y hy hy0
        · intro a ha
          cases ha
      · have hstep : lastTimeStep none x = none := by
          rw [lastTimeStep]
          rw [if_neg hx]
        rw [hstep] at h1 h3
        refine ⟨?_, ?_, ?_⟩
        · rcases h1 with h1 | h1
          · cases h1
          · exact Or.inr ⟨List.mem_cons_of_mem _ h1.1, h1.2⟩
        · intro y hy hy0
          rcases List.mem_cons.mp hy with rfl | hy
          · exact absurd hy0 hx
          · exact h2 y hy hy0
        · intro a ha
          cases ha
    | some b =>
      by_cases hc : x ≠ "" ∧ strLtB b x = true
      · have hstep : lastTimeStep (some b) x = some x := by
          rw [lastTimeStep]
          rw [if_pos hc]
        have hbx : b < x := (strLtB_iff b x).mp hc.2
        rw [hstep] at h1 h3
        have hxm : x ≤ m := h3 x rfl
        refine ⟨?_, ?_, ?_⟩
        · rcases h1 with h1 | h1
          · injection h1 with h1
            subst h1
            exact Or.inr ⟨List.mem_cons_self _ _, hc.1⟩
          · exact Or.inr ⟨List.mem_cons_of_mem _ h1.1, h1.2⟩
        · intro y hy hy0
          rcases List.mem_cons.mp hy with rfl | hy
          · exact hxm
          · exact h2 y hy hy0
        · intro a ha
          injection ha with ha
          subst ha
          exact le_trans (le_of_lt hbx) hxm
      · have hstep : lastTimeStep (some b) x = some b := by
          rw [lastTimeStep]
          rw [if_neg hc]
        rw [hstep] at h1 h3
        have hbm : b ≤ m := h3 b rfl
        refine ⟨?_, ?_, ?_⟩
        · rcases h1 with h1 | h1
          · injection h1 with h1
            exact Or.inl (by rw [h1])
          · exact Or.inr ⟨List.mem_cons_of_mem _ h1.1, h1.2⟩
        · intro y hy hy0
          rcases List.mem_cons.mp hy with rfl | hy
          · have hnlt : ¬ (strLtB b y = true) := fun hlt => hc ⟨hy0, hlt⟩
            have hnlt2 : ¬ b < y := fun hlt => hnlt ((strLtB_iff b y).mpr hlt)
            exact le_trans (le_of_not_lt hnlt2) hbm
          · exact h2 y hy hy0
        · intro a ha
          injection ha with ha
          subst ha
          exact hbm

/-- Helper: any title kept by `_filter_current_batch` has a history record whose
`last_time` is the latest time. -/
theorem filter_current_mem (cfg : WFConfig) (results : Results) (m : String)
    (hm : maxLastTime? cfg.title_info = some m) :
    ∀ q ∈ alPairs (filter_current_batch cfg results),
      ∃ si info, alGet q.1 cfg.title_info = some si ∧ alGet q.2.1 si = some info ∧
        info.last_time = m := by
  have key : ∀ (l : Results) (acc : Results),
      (∀ q ∈ alPairs acc, ∃ si info, alGet q.1 cfg.title_info = some si ∧
        alGet q.2.1 si = some info ∧ info.last_time = m) →
      ∀ q ∈ alPairs (l.foldl (filterStep cfg m) acc),
        ∃ si info, alGet q.1 cfg.title_info = some si ∧
          alGet q.2.1 si = some info ∧ info.last_time = m := by
    intro l
    induction l with
    | nil =>
      intro acc h
      exact h
    | cons sp rest ih =>
      intro acc h
      rw [List.foldl_cons]
      refine ih _ ?_
      intro q hq
      rw [filterStep] at hq
      rcases hget : alGet sp.1 cfg.title_info with _ | si <;> simp only [hget] at hq
      · exact h q hq
      · by_cases hemp : (sp.2.filter (filterKeep si m)).isEmpty
        · rw [if_pos hemp] at hq
          exact h q hq
        · rw [if_neg hemp] at hq
          rw [alPairs_append] at hq
          rcases List.mem_append.mp hq with hq | hq
          · exact h q hq
          · obtain ⟨inner, hin, hmem⟩ := alPairs_elim hq
            have hin2 := List.mem_singleton.mp hin
            rw [Prod.mk.injEq] at hin2
            obtain ⟨hq1, hinner⟩ := hin2
            rw [hinner] at hmem
            have hmem2 := List.mem_filter.mp hmem
            have hkeep := hmem2.2
            rw [filterKeep] at hkeep
            rcases hget2 : alGet q.2.1 si with _ | info <;> simp only [hget2] at hkeep
            · cases hkeep
            · refine ⟨si, info, ?_, hget2, of_decide_eq_true hkeep⟩
              rw [hq1]
              exact hget
  intro q hq
  rw [filter_current_batch] at hq
  by_cases hti : cfg.title_info.isEmpty
  · exfalso
    rw [List.isEmpty_iff.mp hti] at hm
    cases hm
  · rw [if_neg hti, hm] at hq
    exact key results [] (by intro q hq; cases hq) q hq

/-- Helper: the record's `last_time` is the history record's when one exists. -/
theorem ptd_last_time (cfg : WFConfig) (t : String) (td : TitleData) (src : String)
    (an : Bool) (si : List (String × HistInfo)) (info : HistInfo)
    (h1 : alGet src cfg.title_info = some si) (h2 : alGet t si = some info) :
    (process_title_data cfg t td src an).last_time = info.last_time := by
  simp [process_title_data, h1, h2]

/-- Helper: once a candidate is adopted the scan never returns to `none`. -/
theorem foldl_lastTimeStep_some_of_some (l : List String) :
    ∀ b : String, (l.foldl lastTimeStep (some b)).isSome = true := by
  induction l with
  | nil =>
    intro b
    rfl
  | cons x xs ih =>
    intro b
    rw [List.foldl_cons, lastTimeStep]
    by_cases hc : x ≠ "" ∧ strLtB b x = true
    · rw [if_pos hc]
      exact ih x
    · rw [if_neg hc]
      exact ih b

/-- Helper: a history containing an entry with a non-empty last-seen time makes
the latest-time scan succeed. -/
theorem maxLastTime_isSome (ti : TitleInfo)
    (h : ∃ q ∈ alPairs ti, q.2.2.last_time ≠ "") :
    (maxLastTime? ti).isSome = true := by
  rw [maxLastTime_eq_fold]
  obtain ⟨q, hq, hne⟩ := h
  have hmem : q.2.2.last_time ∈ (alPairs ti).map (fun q => q.2.2.last_time) :=
    List.mem_map.mpr ⟨q, hq, rfl⟩
  have key : ∀ (l : List String), (∃ x ∈ l, x ≠ "") →
      (l.foldl lastTimeStep none).isSome = true := by
    intro l
    induction l with
    | nil =>
      rintro ⟨x, hx, _⟩
      cases hx
    | cons y ys ih =>
      rintro ⟨x, hx, hxne⟩
      rw [List.foldl_cons, lastTimeStep]
      by_cases hy : y ≠ ""
      · rw [if_pos hy]
        exact foldl_lastTimeStep_some_of_some ys y
      · rw [if_neg hy]
        rcases List.mem_cons.mp hx with rfl | hx2
        · exact absurd hxne hy
        · exact ih ⟨x, hx2, hxne⟩
  exact key _ ⟨q.2.2.last_time, hmem, hne⟩

section CurrentMode

variable (wm : String → String → Bool) (results : Results) (wgs0 : List WordGroup)
variable (fw0 : List String) (idn : List (String × String)) (ti : TitleInfo)
variable (thr : Nat) (nt : Results) (gf : List String)
variable (w : WeightConfig) (mx : Nat) (sbp : Bool) (icf : Option Bool)
variable (conv : String → String)

/-- C3: in current mode, when the latest-time scan of the supplied history
yields `m` (some entry has a non-empty last-seen time), the all-new flag is
false, `m` is attained and maximal among the non-empty last-seen times, and
every emitted summary has `last_time = m` and corresponds to a history record
with that last-seen time. -/
theorem current_mode_max_last_time (m : String) (hm : maxLastTime? ti = some m) :
    (∀ ti2 : TitleInfo, (∃ q ∈ alPairs ti2, q.2.2.last_time ≠ "") →
        (maxLastTime? ti2).isSome = true) ∧
    (∀ cfg : WFConfig, cfg.mode = "current" →
        determine_processing_scope cfg results
          = (filter_current_batch cfg results, false)) ∧
    (m ≠ "" ∧ (∃ q ∈ alPairs ti, q.2.2.last_time = m) ∧
      ∀ q ∈ alPairs ti, q.2.2.last_time ≠ "" → q.2.2.last_time ≤ m) ∧
    ((count_word_frequency wm results wgs0 fw0 idn ti thr nt "current" gf w mx sbp
        icf conv).1.all
      (fun st => st.titles.all
        (fun s => decide (s.last_time = m) && hasHistRecordB ti m s))) = true := by
  have hscope : ∀ cfg : WFConfig, cfg.mode = "current" →
      determine_processing_scope cfg results
        = (filter_current_batch cfg results, false) := by
    intro cfg hmode
    rw [determine_processing_scope, hmode]
    simp
  refine ⟨maxLastTime_isSome, hscope, ?_, ?_⟩
  · rw [maxLastTime_eq_fold] at hm
    obtain ⟨h1, h2, h3⟩ := foldl_lastTimeStep_spec _ none m hm
    refine ⟨?_, ?_, ?_⟩
    · rcases h1 with h1 | h1
      · cases h1
      · exact h1.2
    · rcases h1 with h1 | h1
      · cases h1
      · obtain ⟨q, hq, hqm⟩ := List.mem_map.mp h1.1
        exact ⟨q, hq, hqm⟩
    · intro q hq hne
      exact h2 _ (List.mem_map.mpr ⟨q, hq, rfl⟩) hne
  · rw [List.all_eq_true]
    intro st hst
    rw [List.all_eq_true]
    intro s hs
    refine cwf_emitted wm results wgs0 fw0 idn ti thr nt "current" gf w mx sbp icf conv
      (fun s => (decide (s.last_time = m) && hasHistRecordB ti m s) = true) ?_ st hst s hs
    intro q hq
    rw [hscope _ rfl] at hq
    obtain ⟨si, info, hg1, hg2, hlt⟩ := filter_current_mem _ results m hm q hq
    rw [Bool.and_eq_true]
    refine ⟨?_, ?_⟩
    · rw [ptd_last_time _ _ _ _ _ si info hg1 hg2, hlt]
      exact decide_eq_true rfl
    · rw [hasHistRecordB, List.any_eq_true]
      refine ⟨(q.1, q.2.1, info), mem_alPairs_intro (alGet_mem hg1) (alGet_mem hg2), ?_⟩
      rw [Bool.and_eq_true]
      exact ⟨decide_eq_true (by rw [ptd_title]), decide_eq_true hlt⟩

end CurrentMode

/-- C10: in current mode, when no history entry carries a non-empty last-seen
time (including an absent or empty history), the filter degenerates to the
identity and the scope is the full snapshot with the all-new flag false — the
same scope as daily mode. -/
theorem current_mode_no_history (results : Results) (cfg : WFConfig)
    (hmode : cfg.mode = "current") (hml : maxLastTime? cfg.title_info = none) :
    filter_current_batch cfg results = results ∧
    determine_processing_scope cfg results = (results, false) ∧
    determine_processing_scope { cfg with mode := "daily" } results
      = (results, false) := by
  have hf : filter_current_batch cfg results = results := by
    rw [filter_current_batch]
    by_cases hti : cfg.title_info.isEmpty
    · rw [if_pos hti]
    · rw [if_neg hti, hml]
  refine ⟨hf, ?_, ?_⟩
  · rw [determine_processing_scope, hmode]
    simp [hf]
  · rw [determine_processing_scope]
    simp

/-- Witness for C3 at a one-source history whose single record was last seen
at `10-00`. -/
theorem current_mode_max_last_time_witness :
    maxLastTime? [("s1", [("foo", HistInfo.mk "09-00" "10-00" 2 [1] none none none)])]
      = some "10-00" ∧
    (("10-00" : String) ≠ "" ∧
      (∃ q ∈ alPairs [("s1", [("foo", HistInfo.mk "09-00" "10-00" 2 [1] none none none)])],
        q.2.2.last_time = "10-00") ∧
      ∀ q ∈ alPairs [("s1", [("foo", HistInfo.mk "09-00" "10-00" 2 [1] none none none)])],
        q.2.2.last_time ≠ "" → q.2.2.last_time ≤ "10-00") ∧
    ((count_word_frequency wmLit [("s1", [("foo", TitleData.mk [1] "" "" "")])]
        [WordGroup.mk [] ["foo"] "G2" none 0] [] []
        [("s1", [("foo", HistInfo.mk "09-00" "10-00" 2 [1] none none none)])] 3 []
        "current" [] {} 0 false (some false) id).1.all
      (fun st => st.titles.all
        (fun s => decide (s.last_time = "10-00") &&
          hasHistRecordB [("s1", [("foo", HistInfo.mk "09-00" "10-00" 2 [1] none none none)])]
            "10-00" s))) = true :=
  ⟨by decide,
    (current_mode_max_last_time wmLit [("s1", [("foo", TitleData.mk [1] "" "" "")])]
      [WordGroup.mk [] ["foo"] "G2" none 0] [] []
      [("s1", [("foo", HistInfo.mk "09-00" "10-00" 2 [1] none none none)])] 3 [] [] {}
      0 false (some false) id "10-00" (by decide)).2.2⟩

/-- Witness for C10 at an empty history and a one-title snapshot. -/
theorem current_mode_no_history_witness :
    (cwfConfig wmLit [] [] [] [] 3 [] "current" [] {} 0 false none id).mode
      = "current" ∧
    maxLastTime? (cwfConfig wmLit [] [] [] [] 3 [] "current" [] {} 0 false none
        id).title_info = none ∧
    (filter_current_batch (cwfConfig wmLit [] [] [] [] 3 [] "current" [] {} 0 false
          none id) [("s1", [("t1", TitleData.mk [1] "" "" "")])]
        = [("s1", [("t1", TitleData.mk [1] "" "" "")])] ∧
      determine_processing_scope (cwfConfig wmLit [] [] [] [] 3 [] "current" [] {} 0
          false none id) [("s1", [("t1", TitleData.mk [1] "" "" "")])]
        = ([("s1", [("t1", TitleData.mk [1] "" "" "")])], false) ∧
      determine_processing_scope
          { cwfConfig wmLit [] [] [] [] 3 [] "current" [] {} 0 false none id with
            mode := "daily" } [("s1", [("t1", TitleData.mk [1] "" "" "")])]
        = ([("s1", [("t1", TitleData.mk [1] "" "" "")])], false)) :=
  ⟨rfl, rfl,
    current_mode_no_history [("s1", [("t1", TitleData.mk [1] "" "" "")])]
      (cwfConfig wmLit [] [] [] [] 3 [] "current" [] {} 0 false none id) rfl rfl⟩

/-- Helper: an in-place update that bumps one counter by at most one raises the
total by at most one. -/
theorem sumCounts_alModify_le (k : String) (f : Bucket → Bucket)
    (hf : ∀ b, (f b).count ≤ b.count + 1) (ws : List (String × Bucket)) :
    sumCounts (alModify k f ws) ≤ sumCounts ws + 1 := by
  induction ws with
  | nil => simp [alModify, sumCounts]
  | cons q rest ih =>
    obtain ⟨k', v⟩ := q
    rw [alModify]
    by_cases h : k' = k
    · rw [if_pos h]
      simp only [sumCounts, List.map_cons, List.sum_cons]
      have := hf v
      omega
    · rw [if_neg h]
      simp only [sumCounts, List.map_cons, List.sum_cons]
      simp only [sumCounts] at ih
      omega

/-- Helper: all counters start at zero. -/
theorem init_counts_zero (wgs : List WordGroup) :
    ∀ gb ∈ initialize_word_stats wgs, gb.2.count = 0 := by
  rw [initialize_word_stats]
  have key : ∀ (l : List WordGroup) (ws : List (String × Bucket)),
      (∀ gb ∈ ws, gb.2.count = 0) →
      ∀ gb ∈ l.foldl (fun ws g => alInsert g.group_key ⟨0, []⟩ ws) ws,
        gb.2.count = 0 := by
    intro l
    induction l with
    | nil =>
      intro ws h
      exact h
    | cons g gs ih =>
      intro ws h
      rw [List.foldl_cons]
      refine ih _ ?_
      intro gb hgb
      rcases mem_alInsert _ _ _ _ hgb with h1 | h1
      · rw [h1]
      · exact h gb h1
  refine key wgs [] ?_
  intro gb hgb
  cases hgb

/-- Helper: the counter total of an all-zero dict is zero. -/
theorem sumCounts_zero (ws : List (String × Bucket)) (h : ∀ gb ∈ ws, gb.2.count = 0) :
    sumCounts ws = 0 := by
  induction ws with
  | nil => rfl
  | cons gb rest ih =>
    rw [sumCounts, List.map_cons, List.sum_cons, h gb (List.mem_cons_self _ _)]
    have h2 : sumCounts rest = 0 := ih (fun x hx => h x (List.mem_cons_of_mem _ hx))
    rw [sumCounts] at h2
    rw [h2]

/-- Helper: one inner-loop step raises the counter total by at most one and
leaves `total_titles` unchanged. -/
theorem stepTitle_counts (cfg : WFConfig) (an : Bool) (src : String)
    (st : LoopState) (p : String × TitleData) :
    sumCounts (stepTitle cfg an src st p).word_stats ≤ sumCounts st.word_stats + 1 ∧
    (stepTitle cfg an src st p).total = st.total := by
  rw [stepTitle]
  by_cases h1 : procMem st.processed src p.1
  · simp only [h1, if_true]
    exact ⟨Nat.le_succ_of_le le_rfl, by trivial⟩
  · simp only [h1, if_false]
    by_cases h2 : (!matchesWordGroups cfg.wm cfg.word_groups cfg.filter_words
        cfg.global_filters p.1) = true
    · simp only [h2, if_true]
      exact ⟨Nat.le_succ_of_le le_rfl, by trivial⟩
    · simp only [h2, if_false]
      rcases hfind : findAssignedGroup cfg.wm cfg.word_groups (pyLower p.1) with _ | g <;>
        simp only [hfind]
      · exact ⟨Nat.le_succ_of_le le_rfl, by trivial⟩
      · refine ⟨?_, rfl⟩
        refine sumCounts_alModify_le _ _ ?_ _
        intro b
        rw [bumpBucket]

/-- Helper: the inner loop raises the counter total by at most the number of
processed pairs and leaves `total_titles` unchanged. -/
theorem foldTitles_counts (cfg : WFConfig) (an : Bool) (src : String)
    (ps : List (String × TitleData)) :
    ∀ st : LoopState,
      sumCounts (ps.foldl (stepTitle cfg an src) st).word_stats
        ≤ sumCounts st.word_stats + ps.length ∧
      (ps.foldl (stepTitle cfg an src) st).total = st.total := by
  induction ps with
  | nil =>
    intro st
    exact ⟨by simp, rfl⟩
  | cons p ps ih =>
    intro st
    rw [List.foldl_cons]
    obtain ⟨ha, hb⟩ := ih (stepTitle cfg an src st p)
    obtain ⟨hc, hd⟩ := stepTitle_counts cfg an src st p
    refine ⟨?_, by rw [hb, hd]⟩
    rw [List.length_cons]
    omega

/-- Helper: throughout the aggregation loop the counter total never exceeds
`total_titles`. -/
theorem runLoop_counts (cfg : WFConfig) (an : Bool) (toProcess : Results) :
    sumCounts (runLoop cfg an toProcess).word_stats ≤ (runLoop cfg an toProcess).total := by
  rw [runLoop]
  have key : ∀ (l : Results) (st : LoopState),
      sumCounts st.word_stats ≤ st.total →
      sumCounts (l.foldl (stepSource cfg an) st).word_stats
        ≤ (l.foldl (stepSource cfg an) st).total := by
    intro l
    induction l with
    | nil =>
      intro st h
      exact h
    | cons sp rest ih =>
      intro st h
      rw [List.foldl_cons]
      refine ih _ ?_
      rw [stepSource]
      obtain ⟨ha, hb⟩ := foldTitles_counts cfg an sp.1 sp.2
        { st with total := st.total + sp.2.length }
      rw [hb]
      have hc : sumCounts ({ st with total := st.total + sp.2.length } : LoopState).word_stats
          = sumCounts st.word_stats := rfl
      have hf : ({ st with total := st.total + sp.2.length } : LoopState).total
          = st.total + sp.2.length := rfl
      rw [hc] at ha
      rw [hf]
      omega
  refine key toProcess _ ?_
  rw [sumCounts_zero _ (init_counts_zero cfg.word_groups)]

/-- Helper: formatting preserves the counter total. -/
theorem saf_counts (cfg : WFConfig) (ws : List (String × Bucket)) (T : Nat) :
    ((sort_and_format_stats cfg ws T).map (fun st => st.count)).sum = sumCounts ws := by
  simp only [sort_and_format_stats]
  rw [((pySorted_perm (sortStatsLe cfg.sort_by_position_first)
      (ws.map (mkStat cfg
        (cfg.word_groups.enum.foldl (fun m p => alInsert p.2.group_key p.1 m) [])
        (cfg.word_groups.foldl (fun m g => alInsert g.group_key g.max_count m) [])
        (cfg.word_groups.foldl (fun m g => alInsert g.group_key g.display_name m) [])
        T))).map (fun st : Stat => st.count)).sum_eq]
  rw [List.map_map, sumCounts]
  refine congrArg List.sum (List.map_congr_left ?_)
  intro gb hgb
  rfl

/-- C5: each `(source, title)` pair is assigned to at most one group per run,
so the stat counts sum to at most the returned `total_considered` — for every
input, mode and configuration. -/
theorem stats_count_le_total (wm : String → String → Bool) (results : Results)
    (wgs0 : List WordGroup) (fw0 : List String) (idn : List (String × String))
    (ti : TitleInfo) (thr : Nat) (nt : Results) (mode : String) (gf : List String)
    (w : WeightConfig) (mx : Nat) (sbp : Bool) (icf : Option Bool)
    (conv : String → String) :
    (((count_word_frequency wm results wgs0 fw0 idn ti thr nt mode gf w mx sbp icf
        conv).1).map (fun st => st.count)).sum
      ≤ (count_word_frequency wm results wgs0 fw0 idn ti thr nt mode gf w mx sbp icf
        conv).2 := by
  refine le_trans (le_of_eq (saf_counts _ _ _)) ?_
  exact runLoop_counts _ _ _

/-- Helper: the RSS loop's inline per-group condition coincides with the ranked
loop's inline condition. -/
theorem rssGroupMatch_eq (wm : String → String → Bool) (g : WordGroup) (t : String) :
    rssGroupMatch wm g t = groupInlineMatch wm g t := by
  rw [groupInlineMatch_eq, rssGroupMatch]
  cases hreq : g.required.isEmpty <;> cases hnorm : g.normal.isEmpty <;>
    cases hra : g.required.all (fun w => wm w t) <;>
      cases hna : g.normal.any (fun w => wm w t) <;>
        simp [hreq, hnorm, hra, hna]

/-- Helper: every RSS stats entry comes from a bucket with a nonzero count. -/
theorem rssBuildStats_pos (wgs : List WordGroup) (mx T : Nat)
    (ws : List (String × RssBucket)) :
    ∀ st ∈ rssBuildStats wgs mx T ws, 0 < st.count := by
  simp only [rssBuildStats]
  have key : ∀ (l : List (String × RssBucket)) (pm mm : List (String × Nat))
      (dm : List (String × Option String)) (acc : List RssStat),
      (∀ st ∈ acc, 0 < st.count) →
      ∀ st ∈ l.foldl (rssStatStep pm mm dm mx T) acc, 0 < st.count := by
    intro l pm mm dm
    induction l with
    | nil =>
      intro acc h
      exact h
    | cons gb rest ih =>
      intro acc h
      rw [List.foldl_cons]
      refine ih _ ?_
      intro st hst
      rw [rssStatStep] at hst
      by_cases hz : gb.2.count = 0
      · rw [if_pos hz] at hst
        exact h st hst
      · rw [if_neg hz] at hst
        rcases List.mem_append.mp hst with h1 | h1
        · exact h st h1
        · rw [List.mem_singleton.mp h1]
          exact Nat.pos_of_ne_zero hz
  intro st hst
  exact key ws _ _ _ [] (by intro st hst; cases hst) st hst

/-- C8, counterexample: the RSS variant short-circuits an empty item list to
`([], 0)` and omits zero-count groups, while the ranked variant emits one stats
entry per group in both situations — a difference not among the three the claim
allows. -/
theorem rss_variant_cex :
    count_rss_frequency wmLit []
        [WordGroup.mk [] ["a"] "GA" none 0, WordGroup.mk [] ["b"] "GB" none 0]
        [] [] [] 0 false 5 id = ([], 0) ∧
    (count_word_frequency wmLit []
        [WordGroup.mk [] ["a"] "GA" none 0, WordGroup.mk [] ["b"] "GB" none 0]
        [] [] [] 5 [] "daily" [] {} 0 false none id).1.length = 2 ∧
    (count_rss_frequency wmLit [RssItem.mk "a" none none "u1" "2024" ""]
        [WordGroup.mk [] ["a"] "GA" none 0, WordGroup.mk [] ["b"] "GB" none 0]
        [] [] [] 0 false 5 id).1.length = 1 ∧
    (count_word_frequency wmLit [("s1", [("a", TitleData.mk [1] "" "" "")])]
        [WordGroup.mk [] ["a"] "GA" none 0, WordGroup.mk [] ["b"] "GB" none 0]
        [] [] [] 5 [] "daily" [] {} 0 false none id).1.length = 2 := by
  refine ⟨?_, ?_, ?_, ?_⟩ <;> decide

/-- C8, amended: besides the three claimed differences (synthesized ranks,
url-based `is_new`, url-keyed dedup), the RSS variant also returns `([], 0)` on
an empty item list and omits every zero-count group from its statistics, and it
sorts titles within a group by the synthesized rank alone; the per-group
matching condition and the final group-ordering comparison do coincide with the
ranked variant's. -/
theorem rss_variant_amended :
    (∀ (wm : String → String → Bool) (g : WordGroup) (t : String),
      rssGroupMatch wm g t = groupInlineMatch wm g t) ∧
    (∀ (byPos : Bool) (w1 : String) (c1 p1 : Nat) (t1 : List RssSummary) (per1 : ℚ)
        (w2 : String) (c2 p2 : Nat) (t2 : List RssSummary) (per2 : ℚ),
      rssStatsLe byPos (RssStat.mk w1 c1 p1 t1 per1) (RssStat.mk w2 c2 p2 t2 per2)
        = sortStatsLe byPos (Stat.mk w1 c1 p1 [] per1) (Stat.mk w2 c2 p2 [] per2)) ∧
    (∀ (wm : String → String → Bool) (wgs : List WordGroup) (fw gf : List String)
        (ni : List RssItem) (mx : Nat) (sbp : Bool) (thr : Nat)
        (fmt : String → String),
      count_rss_frequency wm [] wgs fw gf ni mx sbp thr fmt = ([], 0)) ∧
    (∀ (wm : String → String → Bool) (items : List RssItem) (wgs : List WordGroup)
        (fw gf : List String) (ni : List RssItem) (mx : Nat) (sbp : Bool) (thr : Nat)
        (fmt : String → String),
      ((count_rss_frequency wm items wgs fw gf ni mx sbp thr fmt).1.all
        (fun st => decide (0 < st.count))) = true) := by
  refine ⟨rssGroupMatch_eq, ?_, ?_, ?_⟩
  · intro byPos w1 c1 p1 t1 per1 w2 c2 p2 t2 per2
    rfl
  · intro wm wgs fw gf ni mx sbp thr fmt
    rfl
  · intro wm items wgs fw gf ni mx sbp thr fmt
    rw [List.all_eq_true]
    intro st hst
    rw [count_rss_frequency] at hst
    by_cases hi : items.isEmpty
    · rw [if_pos hi] at hst
      cases hst
    · rw [if_neg hi] at hst
      rw [mem_pySorted] at hst
      exact decide_eq_true (rssBuildStats_pos _ _ _ _ st hst)

end TrendRadar

